import Mathlib

/-!
# Verification of the cookie-notice-scanner prototype

A shallow embedding, in Lean 4, of the core logic of `src/prototype.py`
(a research crawler that detects cookie-consent notices in a remotely
controlled browser), together with theorems checking the natural-language
specification against the code.

Remote browser calls (DevTools wire protocol) are modelled as explicit
environment/oracle parameters; the injected JavaScript heuristics are
translated function by function; the per-page result object
(`WebpageResult`) is an explicit state record threaded through the
operations; the multiprocessing lock protocol is modelled as an
interleaving transition system.
-/

namespace CookieScanner

/-! ## Python string helpers

`str(n)` on a non-negative integer and `s.startswith(p)` / `d in h`
(substring test), modelled on lists of characters. -/

/-- Python `str(n)` for a natural number, as a list of characters. -/
def pyStr (n : Nat) : List Char := Nat.toDigits 10 n

/-- Python `s.startswith(p)`. -/
def pyStartswith (s pre : List Char) : Bool := List.isPrefixOf pre s

/-- Python `needle in haystack` for strings: contiguous substring test. -/
def pyIn (needle haystack : List Char) : Bool := decide (needle <:+: haystack)

/-- Python `str.lower()` on an ASCII character. -/
def pyLowerChar (c : Char) : Char :=
  if c.isUpper then Char.ofNat (c.toNat + 32) else c

/-- Python `s.lower()` (ASCII case fold, which covers DOM node names). -/
def pyLower (s : String) : String := ⟨s.data.map pyLowerChar⟩

/-! ## AdblockPlus filter rules (`AdblockPlusFilter`, prototype.py 695-726)

A parsed rule (`abp.filters.parser.Filter` with CSS selector) is kept as its
selector value plus its options list.  The code only ever reads options whose
key is `"domain"`; the value of such an option is a list of
`(domain, included)` pairs.  Hostnames and domains are lists of characters so
that Python's substring test `opt_domain in hostname` is `List.isInfixOf`. -/

structure FilterRule where
  selector : String
  options : List (String × List (List Char × Bool))
deriving DecidableEq, Repr

/-- `AdblockPlusFilter._is_rule_applicable` (prototype.py 706-726). -/
def is_rule_applicable (rule : FilterRule) (hostname : List Char) : Bool :=
  match rule.options.filter (fun kv => kv.1 = "domain") with
  | [] => true
  | (_, domains) :: _ =>
    let domains2 := domains.filter (fun d => d.2 = true)
    if domains2.length = 0 then true
    else domains2.any (fun d => pyIn d.1 hostname)

/-- `AdblockPlusFilter.get_applicable_rules` (prototype.py 703-704). -/
def get_applicable_rules (rules : List FilterRule) (hostname : List Char) :
    List FilterRule :=
  rules.filter (fun rule => is_rule_applicable rule hostname)

/-- All `(domain, included)` entries carried by `domain` options of a rule
(the spec speaks of "the rule's domain entries"). -/
def domainEntries (rule : FilterRule) : List (List Char × Bool) :=
  (rule.options.filter (fun kv => kv.1 = "domain")).flatMap (fun kv => kv.2)

/-- The positively-scoped domain entries of a rule. -/
def positiveDomains (rule : FilterRule) : List (List Char × Bool) :=
  (domainEntries rule).filter (fun d => d.2 = true)

/-! ## The per-page result record (`WebpageResult`, prototype.py 18-78)

`screenshots` and `cookies` are Python dicts keyed by strings; they are
modelled as insertion-ordered association lists where assigning to an
existing key updates it in place and assigning to a fresh key appends.
`rank`, `url` and `hostname` are omitted: no claim depends on them and
hostname derivation (`urllib.parse.urlparse`) is an external library. -/

/-- One recorded cookie (`Network.getAllCookies` record); only the fields the
code reads (`name`, `domain`, `path`) plus `value` are kept. -/
structure Cookie where
  name : String
  domain : String
  path : String
  value : String
deriving DecidableEq, Repr

/-- One recorded response (`WebpageResult.add_response`). -/
structure RespRec where
  url : String
  status : Nat
  mime_type : String
  headers : List (String × String)
deriving DecidableEq, Repr

/-- Python dict assignment `m[k] = v` on an insertion-ordered association
list. -/
def dictSet {β : Type} (m : List (String × β)) (k : String) (v : β) :
    List (String × β) :=
  if m.any (fun p => p.1 = k) then
    m.map (fun p => if p.1 = k then (k, v) else p)
  else
    m ++ [(k, v)]

/-- `WebpageResult` (prototype.py 18-41). -/
structure Webpage where
  failed : Bool := false
  failed_reason : Option String := none
  failed_exception : Option String := none
  skipped : Bool := false
  skipped_reason : Option String := none
  stopped_waiting : Bool := false
  stopped_waiting_reason : Option String := none
  requests : List String := []
  responses : List RespRec := []
  cookies : List (String × List Cookie) := []
  screenshots : List (String × String) := []
  language : Option String := none
  is_cmp_defined : Bool := false
deriving DecidableEq, Repr

namespace Webpage

/-- `WebpageResult.set_failed` (prototype.py 42-45). -/
def set_failed (w : Webpage) (reason : String) (exc : Option String := none) :
    Webpage :=
  { w with failed := true, failed_reason := some reason,
           failed_exception := exc }

/-- `WebpageResult.set_skipped` (prototype.py 47-49). -/
def set_skipped (w : Webpage) (reason : String) : Webpage :=
  { w with skipped := true, skipped_reason := some reason }

/-- `WebpageResult.set_stopped_waiting` (prototype.py 51-53). -/
def set_stopped_waiting (w : Webpage) (reason : String) : Webpage :=
  { w with stopped_waiting := true, stopped_waiting_reason := some reason }

/-- `WebpageResult.add_request` (prototype.py 55-58). -/
def add_request (w : Webpage) (request_url : String) : Webpage :=
  { w with requests := w.requests ++ [request_url] }

/-- `WebpageResult.add_response` (prototype.py 60-66). -/
def add_response (w : Webpage) (requested_url : String) (status : Nat)
    (mime_type : String) (headers : List (String × String)) : Webpage :=
  { w with responses :=
      w.responses ++ [⟨requested_url, status, mime_type, headers⟩] }

/-- `WebpageResult.set_cookies` (prototype.py 68-69). -/
def set_cookies (w : Webpage) (key : String) (cs : List Cookie) : Webpage :=
  { w with cookies := dictSet w.cookies key cs }

/-- `WebpageResult.add_screenshot` (prototype.py 71-72). -/
def add_screenshot (w : Webpage) (name : String) (shot : String) : Webpage :=
  { w with screenshots := dictSet w.screenshots name shot }

/-- `WebpageResult.set_language` (prototype.py 74-75). -/
def set_language (w : Webpage) (lang : String) : Webpage :=
  { w with language := some lang }

/-- `WebpageResult.set_cmp_defined` (prototype.py 77-78). -/
def set_cmp_defined (w : Webpage) (b : Bool) : Webpage :=
  { w with is_cmp_defined := b }

end Webpage

/-! ## Network event handling (`WebpageCrawler._event_*`, prototype.py 156-197)

The crawler stores the requestId of the first request observed
(`self.requestId`, the primary navigation request) and marks the page
failed when that request gets a `4xx`/`5xx` final response or a
`loadingFailed` event.  Event callbacks mutate only the crawler state,
modelled here as explicit state passing. -/

/-- The event-relevant part of `WebpageCrawler`: the primary `requestId`
(`None` until the first request is seen), the `_is_loaded` flag and the
result record. -/
structure CrawlState where
  requestId : Option Nat := none
  is_loaded : Bool := false
  webpage : Webpage := {}
deriving DecidableEq, Repr

/-- A network/page event delivered by the browser. -/
inductive NetEvent where
  | requestWillBeSent (url : String) (requestId : Nat)
  | responseReceived (url : String) (mimeType : String) (status : Nat)
      (headers : List (String × String)) (requestId : Nat)
  | loadingFailed (requestId : Nat) (errorText : String)
  | loadEventFired
deriving DecidableEq, Repr

/-- `WebpageCrawler._event_request_will_be_sent` (prototype.py 156-170). -/
def event_request_will_be_sent (st : CrawlState) (url : String)
    (requestId : Nat) : CrawlState :=
  let st := { st with webpage := st.webpage.add_request url }
  if st.requestId = none then { st with requestId := some requestId } else st

/-- `WebpageCrawler._event_response_received` (prototype.py 172-185).
The status check is Python's
`str(status).startswith('4') or str(status).startswith('5')`. -/
def event_response_received (st : CrawlState) (url : String)
    (mimeType : String) (status : Nat) (headers : List (String × String))
    (requestId : Nat) : CrawlState :=
  let st := { st with webpage :=
      st.webpage.add_response url status mimeType headers }
  if st.requestId = some requestId ∧
      (pyStartswith (pyStr status) ['4'] ||
       pyStartswith (pyStr status) ['5']) = true then
    let reason := "status code `" ++ (pyStr status).asString ++ "`"
    { st with webpage := st.webpage.set_failed reason }
  else st

/-- `WebpageCrawler._event_loading_failed` (prototype.py 187-189). -/
def event_loading_failed (st : CrawlState) (requestId : Nat)
    (errorText : String) : CrawlState :=
  if st.requestId = some requestId then
    let reason := "loading failed `" ++ errorText ++ "`"
    { st with webpage := st.webpage.set_failed reason }
  else st

/-- `WebpageCrawler._event_load_event_fired` (prototype.py 191-197). -/
def event_load_event_fired (st : CrawlState) : CrawlState :=
  { st with is_loaded := true }

/-- Dispatch one event to its callback. -/
def processEvent (st : CrawlState) : NetEvent → CrawlState
  | .requestWillBeSent url rid => event_request_will_be_sent st url rid
  | .responseReceived url mime status headers rid =>
      event_response_received st url mime status headers rid
  | .loadingFailed rid errorText => event_loading_failed st rid errorText
  | .loadEventFired => event_load_event_fired st

/-- Process a sequence of events in order. -/
def processEvents (st : CrawlState) (evs : List NetEvent) : CrawlState :=
  evs.foldl processEvent st

/-! ## Fixed-parent promotion (`find_fixed_parent`, prototype.py 420-471)

The injected script walks `elem.parentNode` upward while the parent is not
the `document`, returning the first element whose computed `position` is
`'fixed'`, and otherwise the element whose parent is the document (the
`html` element).  The Python wrapper then maps an `html` result to either
"no fixed parent" (root frame) or the frame-owner element (child frame).

The frame's DOM is modelled as a total map from node ids to nodes; a node's
`parent` is `none` exactly when `elem.parentNode` is the document.  The walk
carries explicit fuel (`none` = out of fuel, which on a well-founded parent
chain never happens; all theorems take the chain as a hypothesis). -/

/-- A DOM element as seen by the fixed-parent strategy: parent link (`none`
when the parent is the document), computed `position` style, node name as
reported by `DOM.describeNode`, and owning frame id. -/
structure FfNode where
  parent : Option Nat
  position : String
  nodeName : String
  frameId : Nat
deriving DecidableEq, Repr

/-- The injected `findFixedParent` script (prototype.py 429-440): first
fixed-positioned element on the parent chain, else the document-parented
(`html`) element. -/
def findFixedParentJs (dom : Nat → FfNode) : Nat → Nat → Option Nat
  | 0, _ => none
  | fuel + 1, elemId =>
    match (dom elemId).parent with
    | none => some elemId
    | some p =>
      if (dom elemId).position = "fixed" then some elemId
      else findFixedParentJs dom fuel p

/-- Result dict of `WebpageCrawler.find_fixed_parent`. -/
structure FpRes where
  has_fixed_parent : Bool
  fixed_parent : Option Nat
deriving DecidableEq, Repr

/-- `WebpageCrawler.find_fixed_parent` (prototype.py 428-471).
`rootFrameId` is `Page.getFrameTree().frameTree.frame.id` and `frameOwner`
is `DOM.getFrameOwner` restricted to its `nodeId` field. -/
def find_fixed_parent (dom : Nat → FfNode) (rootFrameId : Nat)
    (frameOwner : Nat → Nat) (fuel : Nat) (nodeId : Nat) : Option FpRes :=
  (findFixedParentJs dom fuel nodeId).map fun r =>
    if pyLower (dom r).nodeName = "html" then
      if rootFrameId = (dom r).frameId then ⟨false, none⟩
      else ⟨true, some (frameOwner (dom r).frameId)⟩
    else ⟨true, some r⟩

/-- `WebpageCrawler.find_cookie_notices_by_fixed_parent`
(prototype.py 420-426), on the deep DOM model.  Python accumulates the
results in a `set()`; modelled as a deduplicated list. -/
def find_cookie_notices_by_fixed_parent_dom (dom : Nat → FfNode)
    (rootFrameId : Nat) (frameOwner : Nat → Nat) (fuel : Nat)
    (cookie_node_ids : List Nat) : List Nat :=
  (cookie_node_ids.filterMap fun n =>
    match find_fixed_parent dom rootFrameId frameOwner fuel n with
    | some r => if r.has_fixed_parent then r.fixed_parent else none
    | none => none).dedup

/-- Specification-side ancestor walk, following the spec's words: the chain
of elements from the seed up to (and excluding) the element whose parent is
the document, together with that terminal element. -/
def ancestorPath (dom : Nat → FfNode) : Nat → Nat → Option (List Nat × Nat)
  | 0, _ => none
  | fuel + 1, elemId =>
    match (dom elemId).parent with
    | none => some ([], elemId)
    | some p => (ancestorPath dom fuel p).map fun ct => (elemId :: ct.1, ct.2)

/-! ## Full-width-parent promotion (`find_full_width_parent`, prototype.py 322-418)

The injected script computes outer width/height from `getComputedStyle`
under the current `box-sizing` (all style lengths pass through
`parseInt`, so they are integers here), walks upward until the parent is
"meaningfully taller than its own chrome around the child"
(`heightDiff > verticalSpacing + max(0.25*innerHeight, 20)`), and accepts
the stopped element iff `parseInt(getComputedStyle(document.body).width)`
is at most its outer width.  The single fractional constant `0.25` makes
the stop test rational-valued.

If the walk ascends to the document itself, `getComputedStyle(document)`
throws inside the page; that error path is modelled as `none`, like fuel
exhaustion. -/

/-- The computed-style numbers of one element after `parseInt`, plus its
`box-sizing`, plus the parent link (`none` when `elem.parentNode` is the
`document`). -/
structure FwNode where
  parent : Option Nat
  boxSizing : String
  width : Int
  height : Int
  paddingLeft : Int
  paddingRight : Int
  paddingTop : Int
  paddingBottom : Int
  borderLeftWidth : Int
  borderRightWidth : Int
  borderTopWidth : Int
  borderBottomWidth : Int
  marginLeft : Int
  marginRight : Int
  marginTop : Int
  marginBottom : Int
deriving DecidableEq, Repr

namespace FwNode

/-- `getWidth` (prototype.py 333-343). -/
def getWidth (s : FwNode) : Int :=
  if s.boxSizing = "content-box" then
    s.width + s.paddingLeft + s.paddingRight +
      s.borderLeftWidth + s.borderRightWidth + s.marginLeft + s.marginRight
  else
    s.width + s.marginLeft + s.marginRight

/-- `getHeight` (prototype.py 345-355). -/
def getHeight (s : FwNode) : Int :=
  if s.boxSizing = "content-box" then
    s.height + s.paddingTop + s.paddingBottom +
      s.borderTopWidth + s.borderBottomWidth + s.marginTop + s.marginBottom
  else
    s.height + s.marginTop + s.marginBottom

/-- `getVerticalSpacing` (prototype.py 364-369). -/
def getVerticalSpacing (s : FwNode) : Int :=
  s.paddingTop + s.paddingBottom + s.borderTopWidth + s.borderBottomWidth +
    s.marginTop + s.marginBottom

end FwNode

/-- `isParentHigherThanItsSpacing` (prototype.py 383-386):
`getHeightDiff(outer, inner) > getVerticalSpacing(outer) + max(0.25*getHeight(inner), 20)`.
All quantities are integers (`parseInt`), so the test is stated multiplied
by 4, which is exact: `d > v + max(h/4, 20)  ↔  4*d > 4*v + max(h, 80)`. -/
def isParentHigherThanItsSpacing (outer inner : FwNode) : Bool :=
  decide (4 * (outer.getHeight - inner.getHeight) >
    4 * outer.getVerticalSpacing + max inner.getHeight 80)

/-- The upward walk of the injected `findFullWidthParent` script
(prototype.py 388-395): returns the element on which the final width test
runs (the `break` case).  `none` covers fuel exhaustion and the chain
running into the document (where the page-side script would throw). -/
def findFullWidthWalk (dom : Nat → FwNode) : Nat → Nat → Option Nat
  | 0, _ => none
  | fuel + 1, elemId =>
    match (dom elemId).parent with
    | none => none
    | some p =>
      if isParentHigherThanItsSpacing (dom p) (dom elemId) then some elemId
      else findFullWidthWalk dom fuel p

/-- The injected `findFullWidthParent` script (prototype.py 331-402):
after the walk, return the element iff
`parseInt(getComputedStyle(document.body).width) <= getWidth(elem)`,
else return `false` (modelled as the inner `none`). -/
def findFullWidthParentJs (dom : Nat → FwNode) (bodyWidth : Int)
    (fuel : Nat) (elemId : Nat) : Option (Option Nat) :=
  (findFullWidthWalk dom fuel elemId).map fun e =>
    if bodyWidth ≤ (dom e).getWidth then some e else none

/-- Result dict of `WebpageCrawler.find_full_width_parent`. -/
structure FwpRes where
  parent_node_exists : Bool
  parent_node : Option Nat
deriving DecidableEq, Repr

/-- `WebpageCrawler.find_full_width_parent` (prototype.py 330-418): a
boolean script result means no full-width parent, an element result is the
full-width parent. -/
def find_full_width_parent (dom : Nat → FwNode) (bodyWidth : Int)
    (fuel : Nat) (nodeId : Nat) : Option FwpRes :=
  (findFullWidthParentJs dom bodyWidth fuel nodeId).map fun r =>
    match r with
    | some e => ⟨true, some e⟩
    | none => ⟨false, none⟩

/-- `WebpageCrawler.find_cookie_notices_by_full_width_parent`
(prototype.py 322-328), on the deep DOM model.  Python accumulates the
results in a `set()`; modelled as a deduplicated list. -/
def find_cookie_notices_by_full_width_parent_dom (dom : Nat → FwNode)
    (bodyWidth : Int) (fuel : Nat) (cookie_node_ids : List Nat) : List Nat :=
  (cookie_node_ids.filterMap fun n =>
    match find_full_width_parent dom bodyWidth fuel n with
    | some r => if r.parent_node_exists then r.parent_node else none
    | none => none).dedup

/-! ## Visibility predicate (`is_node_visible`, prototype.py 500-576)

The injected `isVisible` script hard-rejects `display:none`, low opacity
and non-`visible` visibility, tentatively rejects zero-size or
out-of-viewport elements, hit-tests otherwise, and on tentative rejection
recurses over `childNodes`, returning the first recursively visible
descendant.  The node tree is modelled deeply; `elementFromPoint` plus the
`pointContainer.parentNode` do-while loop are modelled by an environment
function giving, for a point, the hit element and its ancestor chain (the
loop succeeds iff the tested element occurs on that chain).  Geometry is
rational-valued (`opacity < 0.1`, halved widths). -/

/-- Computed style of one element, for the visibility predicate.  The
computed `opacity` is an exact rational (the script compares it against the
literal `0.1`). -/
structure VStyle where
  display : String
  opacity : ℚ
  visibility : String
deriving DecidableEq, Repr

/-- Geometry of one element: `offsetWidth`/`offsetHeight` and the
`getBoundingClientRect()` fields read by the script, as integer pixel
values. -/
structure VGeom where
  offsetWidth : Int
  offsetHeight : Int
  rectLeft : Int
  rectTop : Int
  rectWidth : Int
  rectHeight : Int
deriving DecidableEq, Repr

/-- A DOM node for the visibility predicate: an element (with id, style,
geometry and child nodes) or a non-element node (`!(elem instanceof
Element)`). -/
inductive VNode where
  | elem (id : Nat) (style : VStyle) (geom : VGeom) (children : List VNode)
  | other

/-- Page-level context of the visibility script:
`document.documentElement.clientWidth || window.innerWidth` (and height),
and `document.elementFromPoint(x, y)` together with its `parentNode` chain,
as the list of element ids the do-while loop visits.  The hit point is the
element's center `(rectLeft + offsetWidth/2, rectTop + offsetHeight/2)`;
to stay inside ℤ it is passed in doubled coordinates
`(2*rectLeft + offsetWidth, 2*rectTop + offsetHeight)`, and the viewport
comparisons are likewise doubled (exact, since doubling is monotone). -/
structure VEnv where
  clientWidth : Int
  clientHeight : Int
  hitChain : Int → Int → List Nat

mutual

/-- The injected `isVisible` script (prototype.py 505-555): `none` models
the script returning `false`, `some v` models it returning the element with
id `v`. -/
def isVisible (env : VEnv) : VNode → Option Nat
  | .other => none
  | .elem id st g children =>
    if st.display = "none" then none
    else if Rat.blt st.opacity (mkRat 1 10) then none
    else if st.visibility ≠ "visible" then none
    else
      let visible :=
        !(g.offsetWidth + g.offsetHeight + g.rectHeight + g.rectWidth == 0)
        && !(g.offsetWidth == 0 || g.offsetHeight == 0)
      let cx2 := 2 * g.rectLeft + g.offsetWidth
      let cy2 := 2 * g.rectTop + g.offsetHeight
      let visible := visible && !(cx2 < 0) && !(cx2 > 2 * env.clientWidth)
        && !(cy2 < 0) && !(cy2 > 2 * env.clientHeight)
      if visible then
        if id ∈ env.hitChain cx2 cy2 then some id else none
      else firstVisibleChild env children

/-- The `childNodes` loop of `isVisible` (prototype.py 544-552): result of
the first child on which the recursive call returns an element. -/
def firstVisibleChild (env : VEnv) : List VNode → Option Nat
  | [] => none
  | c :: cs =>
    match isVisible env c with
    | some r => some r
    | none => firstVisibleChild env cs

end

/-- Result dict of `WebpageCrawler.is_node_visible` (prototype.py 565-576):
a boolean script result means invisible; an element result means visible,
with the id of the actually-visible node. -/
structure Visibility where
  is_visible : Bool
  visible_node : Option Nat
deriving DecidableEq, Repr

/-- `WebpageCrawler.is_node_visible` (prototype.py 500-576), on the deep
node model. -/
def is_node_visible (env : VEnv) (n : VNode) : Visibility :=
  match isVisible env n with
  | none => ⟨false, none⟩
  | some v => ⟨true, some v⟩

/-- The substitution step of `WebpageCrawler.take_screenshots_of_visible_nodes`
(prototype.py 578-582): keep only visible nodes, replaced by their visible
descendant's id. -/
def visible_nodes_selection (env : VEnv) (nodes : List VNode) : List Nat :=
  (nodes.map (is_node_visible env)).filterMap fun v =>
    if v.is_visible then v.visible_node else none

/-! ## Cookie purge (`_delete_all_cookies`, prototype.py 631-637)

The browser's cookie jar is an abstract state `σ` with the two wire calls
the code makes (`Network.getAllCookies`, `Network.deleteCookies`).  The
`while` loop is run on explicit fuel counting its passes; `none` means the
given number of passes did not reach an empty jar. -/

/-- The cookie-related wire calls, over an abstract browser state. -/
structure CookieJarOps (σ : Type) where
  getAllCookies : σ → List Cookie
  deleteCookies : σ → String → String → String → σ

/-- One pass of the loop body (prototype.py 636-637): delete every cookie of
a fresh `getAllCookies` snapshot. -/
def delete_pass {σ : Type} (ops : CookieJarOps σ) (s : σ) : σ :=
  (ops.getAllCookies s).foldl
    (fun b c => ops.deleteCookies b c.name c.domain c.path) s

/-- `WebpageCrawler._delete_all_cookies` (prototype.py 634-637):
`while len(getAllCookies()) != 0: for cookie in getAllCookies(): delete`.
The code has no pass cap; `fuel` bounds how many loop iterations the model
will run before giving up with `none`. -/
def delete_all_cookies {σ : Type} (ops : CookieJarOps σ) :
    Nat → σ → Option σ
  | 0, _ => none
  | fuel + 1, s =>
    if (ops.getAllCookies s).length ≠ 0 then
      delete_all_cookies ops fuel (delete_pass ops s)
    else some s

/-! ## The detection pipeline (`detect_cookie_notices`, prototype.py 207-257)

All remote calls made by the pipeline are oracles in `DetectEnv`: the
language probe, the CMP probe, the rule/text queries, per-node visibility,
block/fixed/full-width promotion, the screenshot bytes, and the cookie jar.
The function returns the updated result record, the updated cookie-jar
state and a log of which probe/screenshot/cookie operations it performed
(`none` when the final cookie purge loop exceeds its fuel).  Python `set()`
accumulation is modelled by `List.dedup`.  File persistence
(`save_screenshots`) and the overlay highlight calls do not touch the
result record and are not modelled. -/

/-- Operations the detection step performs against the browser, in order. -/
inductive TabOp where
  | langProbe
  | cmpProbe
  | rulesQuery
  | searchText
  | bringToFront
  | capture (name : String)
  | getCookies
  | purgeCookies
deriving DecidableEq, Repr

/-- The oracles behind every remote call of `detect_cookie_notices`. -/
structure DetectEnv (σ : Type) where
  /-- `detect_language` (prototype.py 259-261): language of
  `document.body.innerText` according to `langdetect`. -/
  language : String
  /-- `is_cmp_function_defined` (prototype.py 488-493). -/
  cmpDefined : Bool
  /-- `find_cookie_notices_by_rules` (prototype.py 473-486). -/
  ruleNodeIds : List Nat
  /-- `search_for_string('cookie')` (prototype.py 263-293). -/
  searchNodeIds : List Nat
  /-- `is_node_visible` per node id (prototype.py 500-576). -/
  visibility : Nat → Visibility
  /-- `find_parent_block_element` (prototype.py 295-320). -/
  parentBlock : Nat → Nat
  /-- `find_fixed_parent` per node id (prototype.py 428-471). -/
  fixedParent : Nat → FpRes
  /-- `find_full_width_parent` per node id (prototype.py 330-418). -/
  fullWidthParent : Nat → FwpRes
  /-- `Page.captureScreenshot` data (prototype.py 591-602). -/
  screenshotData : String
  /-- Cookie jar wire calls. -/
  jar : CookieJarOps σ

/-- `WebpageCrawler._filter_visible_nodes` (prototype.py 648-649). -/
def filter_visible_nodes (vis : Nat → Visibility) (node_ids : List Nat) :
    List Nat :=
  node_ids.filter fun n => (vis n).is_visible

/-- `WebpageCrawler.find_cookie_notices_by_fixed_parent`
(prototype.py 420-426), over the per-node oracle. -/
def find_cookie_notices_by_fixed_parent (fp : Nat → FpRes)
    (cookie_node_ids : List Nat) : List Nat :=
  (cookie_node_ids.filterMap fun n =>
    if (fp n).has_fixed_parent then (fp n).fixed_parent else none).dedup

/-- `WebpageCrawler.find_cookie_notices_by_full_width_parent`
(prototype.py 322-328), over the per-node oracle. -/
def find_cookie_notices_by_full_width_parent (fwp : Nat → FwpRes)
    (cookie_node_ids : List Nat) : List Nat :=
  (cookie_node_ids.filterMap fun n =>
    if (fwp n).parent_node_exists then (fwp n).parent_node else none).dedup

/-- `WebpageCrawler.take_screenshot` (prototype.py 591-602). -/
def take_screenshot (data : String) (w : Webpage) (name : String) : Webpage :=
  w.add_screenshot name data

/-- `WebpageCrawler.take_screenshots_of_nodes` (prototype.py 584-589): one
screenshot per node, labeled `name-index`. -/
def take_screenshots_of_nodes (data : String) (w : Webpage) (name : String)
    (node_ids : List Nat) : Webpage :=
  (node_ids.enum).foldl
    (fun w p => take_screenshot data w (name ++ "-" ++ (pyStr p.1).asString)) w

/-- The node-id selection of `take_screenshots_of_visible_nodes`
(prototype.py 578-582), over the visibility oracle: visible nodes only,
replaced by their visible descendant. -/
def selection_of_visible (vis : Nat → Visibility) (node_ids : List Nat) :
    List Nat :=
  (node_ids.map vis).filterMap fun v =>
    if v.is_visible then v.visible_node else none

/-- `WebpageCrawler.take_screenshots_of_visible_nodes`
(prototype.py 578-582), over the visibility oracle. -/
def take_screenshots_of_visible_nodes (data : String)
    (vis : Nat → Visibility) (w : Webpage) (node_ids : List Nat)
    (name : String) : Webpage :=
  take_screenshots_of_nodes data w name (selection_of_visible vis node_ids)

/-- `WebpageCrawler.detect_cookie_notices` (prototype.py 207-257).  The
triple-mutex block only orders operations between workers (modelled in the
lock section) and is a no-op for the single worker's state transition. -/
def detect_cookie_notices {σ : Type} (env : DetectEnv σ) (fuel : Nat)
    (w : Webpage) (s : σ) : Option (Webpage × σ × List TabOp) :=
  let lang := env.language
  let w := w.set_language lang
  if lang ≠ "en" ∧ lang ≠ "de" then
    some (w.set_skipped ("unimplemented language `" ++ lang ++ "`"), s,
      [.langProbe])
  else
    let w := w.set_cmp_defined env.cmpDefined
    let cookie_notice_rule_node_ids := env.ruleNodeIds.dedup
    let cookie_node_ids := env.searchNodeIds
    let cookie_node_ids := filter_visible_nodes env.visibility cookie_node_ids
    let cookie_node_ids := (cookie_node_ids.map env.parentBlock).dedup
    let cookie_notice_fixed_node_ids :=
      find_cookie_notices_by_fixed_parent env.fixedParent cookie_node_ids
    let cookie_notice_fixed_node_ids :=
      filter_visible_nodes env.visibility cookie_notice_fixed_node_ids
    let cookie_notice_full_width_node_ids :=
      find_cookie_notices_by_full_width_parent env.fullWidthParent
        cookie_node_ids
    let cookie_notice_full_width_node_ids :=
      filter_visible_nodes env.visibility cookie_notice_full_width_node_ids
    let w := take_screenshot env.screenshotData w "original"
    let w := take_screenshots_of_visible_nodes env.screenshotData
      env.visibility w cookie_notice_rule_node_ids "rules"
    let w := take_screenshots_of_visible_nodes env.screenshotData
      env.visibility w cookie_notice_fixed_node_ids "fixed-parent"
    let w := take_screenshots_of_visible_nodes env.screenshotData
      env.visibility w cookie_notice_full_width_node_ids "full-width-parent"
    let w := w.set_cookies "all" (env.jar.getAllCookies s)
    match delete_all_cookies env.jar fuel s with
    | none => none
    | some s2 =>
      some (w, s2,
        [.langProbe, .cmpProbe, .rulesQuery, .searchText, .bringToFront,
         .capture "original", .getCookies, .purgeCookies])

/-! ## The triple-lock protocol (prototype.py 237-247 and 679-692)

The three module-global `multiprocessing.Lock`s `lock_l`, `lock_m`,
`lock_n` (prototype.py 743-745) coordinate the shared foreground tab.  A
screenshot worker (`detect_cookie_notices`) runs

  `with lock_l: lock_n.acquire(); with lock_m: lock_n.release(); <critical>`

and a tab-creation worker (`Browser.crawl_page`) runs

  `lock_n.acquire(); with lock_m: lock_n.release(); new_tab()`.

This is modelled as an interleaving transition system: each worker is a
program counter over its fixed instruction sequence, a lock is `none` or
the index of the worker holding it, and a schedule is the list of worker
indices taking steps.  A step is enabled only if its instruction is
(acquiring a free lock, releasing, or internal work). -/

/-- Which lock. -/
inductive LockId where
  | l
  | m
  | n
deriving DecidableEq, Repr

/-- The two worker shapes that touch the locks. -/
inductive WKind where
  | screenshot
  | tabcreate
deriving DecidableEq, Repr

/-- One instruction of a worker program. -/
inductive Instr where
  | acq (lk : LockId)
  | rel (lk : LockId)
  | work
deriving DecidableEq, Repr

/-- The instruction sequences.  Screenshot worker
(prototype.py 238-247): acquire `L`, acquire `N`, acquire `M`, release `N`,
critical section (bring to front + screenshots), release `M`, release `L`.
Tab creation (prototype.py 683-686): acquire `N`, acquire `M`, release `N`,
create tab, release `M`. -/
def progOf : WKind → Nat → Option Instr
  | .screenshot, 0 => some (.acq .l)
  | .screenshot, 1 => some (.acq .n)
  | .screenshot, 2 => some (.acq .m)
  | .screenshot, 3 => some (.rel .n)
  | .screenshot, 4 => some .work
  | .screenshot, 5 => some (.rel .m)
  | .screenshot, 6 => some (.rel .l)
  | .tabcreate, 0 => some (.acq .n)
  | .tabcreate, 1 => some (.acq .m)
  | .tabcreate, 2 => some (.rel .n)
  | .tabcreate, 3 => some .work
  | .tabcreate, 4 => some (.rel .m)
  | _, _ => none

/-- A worker: its shape and program counter. -/
structure WorkerSt where
  kind : WKind
  pc : Nat
deriving DecidableEq, Repr

/-- System state: the workers and the holder of each lock. -/
structure LockSys where
  workers : List WorkerSt
  ownerL : Option Nat
  ownerM : Option Nat
  ownerN : Option Nat
deriving DecidableEq, Repr

/-- The holder field of one lock. -/
def LockSys.owner (s : LockSys) : LockId → Option Nat
  | .l => s.ownerL
  | .m => s.ownerM
  | .n => s.ownerN

/-- Replace the holder field of one lock. -/
def LockSys.setOwner (s : LockSys) : LockId → Option Nat → LockSys
  | .l, o => { s with ownerL := o }
  | .m, o => { s with ownerM := o }
  | .n, o => { s with ownerN := o }

/-- Worker `i` takes its next step, if enabled: acquiring requires the lock
to be free; the program counter always advances by one. -/
def stepW (s : LockSys) (i : Nat) : Option LockSys :=
  match s.workers[i]? with
  | none => none
  | some w =>
    match progOf w.kind w.pc with
    | none => none
    | some ins =>
      let s2 := { s with workers := s.workers.set i ⟨w.kind, w.pc + 1⟩ }
      match ins with
      | .acq lk => if s.owner lk = none then some (s2.setOwner lk (some i))
                   else none
      | .rel lk => some (s2.setOwner lk none)
      | .work => some s2

/-- Run a schedule (list of worker indices); `none` if any step is not
enabled. -/
def runSched (s : LockSys) : List Nat → Option LockSys
  | [] => some s
  | i :: tr => (stepW s i).bind fun s2 => runSched s2 tr

/-- Initial state: every worker at program counter 0, all locks free. -/
def initSys (ks : List WKind) : LockSys :=
  ⟨ks.map (⟨·, 0⟩), none, none, none⟩

/-- Worker `w` is inside its `lock_l`-holding region. -/
def holdsL (w : WorkerSt) : Bool :=
  w.kind = .screenshot ∧ 1 ≤ w.pc ∧ w.pc ≤ 6

/-- Worker `w` is inside its `lock_m`-holding region (the screenshot
critical section, or tab creation). -/
def holdsM (w : WorkerSt) : Bool :=
  (w.kind = .screenshot ∧ 3 ≤ w.pc ∧ w.pc ≤ 5) ∨
  (w.kind = .tabcreate ∧ 2 ≤ w.pc ∧ w.pc ≤ 4)

/-- Worker `w` is inside its `lock_n`-holding region. -/
def holdsN (w : WorkerSt) : Bool :=
  (w.kind = .screenshot ∧ 2 ≤ w.pc ∧ w.pc ≤ 3) ∨
  (w.kind = .tabcreate ∧ 1 ≤ w.pc ∧ w.pc ≤ 2)

/-- The owner of a lock is exactly the worker inside the corresponding
holding region. -/
def OwnerInv (ow : Option Nat) (region : WorkerSt → Bool)
    (ws : List WorkerSt) : Prop :=
  ∀ i, ow = some i ↔ ∃ w, ws[i]? = some w ∧ region w = true

/-- The full lock-consistency invariant. -/
def LockInv (s : LockSys) : Prop :=
  OwnerInv s.ownerL holdsL s.workers ∧
  OwnerInv s.ownerM holdsM s.workers ∧
  OwnerInv s.ownerN holdsN s.workers

/-! ## Concrete instances used for evaluation -/

/-- A three-node parent chain (seed div → fixed div → html of the root
frame), for concrete evaluation. -/
def ffDomFixed : Nat → FfNode := fun n =>
  match n with
  | 0 => ⟨some 1, "static", "DIV", 0⟩
  | 1 => ⟨some 2, "fixed", "DIV", 0⟩
  | _ => ⟨none, "static", "HTML", 0⟩

/-- A two-node parent chain inside a child frame (seed div → html of frame
7), no fixed ancestor, for concrete evaluation. -/
def ffDomIframe : Nat → FfNode := fun n =>
  match n with
  | 0 => ⟨some 1, "static", "DIV", 7⟩
  | _ => ⟨none, "static", "HTML", 7⟩

/-- A two-node chain for the full-width walk: a 100-wide, 40-tall seed
inside a much taller (400) container, for concrete evaluation. -/
def fwDomExample : Nat → FwNode := fun n =>
  match n with
  | 0 => ⟨some 1, "border-box", 100, 40, 0, 0, 0, 0, 0, 0, 0, 0, 0, 0, 0, 0⟩
  | _ => ⟨none, "border-box", 100, 400, 0, 0, 0, 0, 0, 0, 0, 0, 0, 0, 0, 0⟩

/-- A detection environment whose language probe reports Japanese; all
node-set oracles are empty and the cookie jar (state `Unit`) is empty. -/
def jaEnv : DetectEnv Unit :=
  ⟨"ja", false, [], [], fun _ => ⟨false, none⟩, id, fun _ => ⟨false, none⟩,
   fun _ => ⟨false, none⟩, "PNG", ⟨fun _ => [], fun s _ _ _ => s⟩⟩

/-- A detection environment whose language probe reports English (e.g. the
text of an error page); all node-set oracles are empty and the cookie jar
(state `Unit`) is empty. -/
def enEnv : DetectEnv Unit :=
  ⟨"en", false, [], [], fun _ => ⟨false, none⟩, id, fun _ => ⟨false, none⟩,
   fun _ => ⟨false, none⟩, "PNG", ⟨fun _ => [], fun s _ _ _ => s⟩⟩

/-- The crawler state after a navigation whose primary request (the first
request observed, id 7) received a `404` final response. -/
def failedNavState : CrawlState :=
  processEvents {}
    [.requestWillBeSent "https://example.com/" 7,
     .responseReceived "https://example.com/" "text/html" 404 [] 7]

/-- A cookie jar that always reports one cookie and on which deletions have
no effect (as when page scripts re-set cookies between passes). -/
def stickyJar : CookieJarOps Unit :=
  ⟨fun _ => [⟨"sid", "example.com", "/", "1"⟩], fun s _ _ _ => s⟩

/-- A cookie jar that is already empty. -/
def emptyJar : CookieJarOps Unit := ⟨fun _ => [], fun s _ _ _ => s⟩

/-! ## Helper lemmas -/

/-- A 3-digit HTTP status in `[400, 599]` satisfies Python's
`str(status).startswith('4') or str(status).startswith('5')` check. -/
theorem startswith_of_status_in_range (s : Nat) (h1 : 400 ≤ s)
    (h2 : s ≤ 599) :
    (pyStartswith (pyStr s) ['4'] || pyStartswith (pyStr s) ['5']) = true := by
  have hk : s - 400 < 200 := by omega
  have hall : ((List.range 200).all fun k =>
      pyStartswith (pyStr (400 + k)) ['4'] ||
      pyStartswith (pyStr (400 + k)) ['5']) = true := by decide
  have hmem := List.all_eq_true.mp hall (s - 400) (List.mem_range.mpr hk)
  simpa [Nat.add_sub_cancel' h1] using hmem

/-! ## C2: rule applicability (confirmed)

A parsed element-hiding (CSS) rule carries at most one `domain` option (the
ABP format attaches all comma-separated domains of such a rule to a single
option), which the hypothesis `hone` records; the characterization is
proved for every such rule. -/

/-- **C2**: for every rule with at most one `domain` option: a rule with no
domain option applies to every hostname; a rule whose domain entries are
all exclusions applies to every hostname; otherwise the rule applies iff
some positively-scoped domain occurs as a substring of the hostname — and
`get_applicable_rules` returns exactly the applicable rules. -/
theorem rule_applicability_characterization
    (rule : FilterRule) (hostname : List Char)
    (hone : (rule.options.filter (fun kv => kv.1 = "domain")).length ≤ 1) :
    ((rule.options.filter (fun kv => kv.1 = "domain")) = [] →
      is_rule_applicable rule hostname = true) ∧
    (positiveDomains rule = [] → is_rule_applicable rule hostname = true) ∧
    (is_rule_applicable rule hostname = true ↔
      (positiveDomains rule = [] ∨
       ∃ d ∈ positiveDomains rule, pyIn d.1 hostname = true)) ∧
    (∀ rules r, r ∈ get_applicable_rules rules hostname ↔
       r ∈ rules ∧ is_rule_applicable r hostname = true) := by
  have hfilter : ∀ rules r, r ∈ get_applicable_rules rules hostname ↔
      r ∈ rules ∧ is_rule_applicable r hostname = true := by
    intro rules r
    simp [get_applicable_rules, List.mem_filter]
  rcases hdos : rule.options.filter (fun kv => kv.1 = "domain") with
    _ | ⟨⟨k, doms⟩, rest⟩
  · have happ : is_rule_applicable rule hostname = true := by
      simp only [is_rule_applicable, hdos]
    have hpos : positiveDomains rule = [] := by
      simp [positiveDomains, domainEntries, hdos]
    exact ⟨fun _ => happ, fun _ => happ, by simp [happ, hpos], hfilter⟩
  · have hrest : rest = [] := by
      rw [hdos] at hone
      simpa using hone
    subst hrest
    have hpos : positiveDomains rule = doms.filter (fun d => d.2 = true) := by
      simp [positiveDomains, domainEntries, hdos]
    refine ⟨fun h => by rw [h] at hdos; exact List.noConfusion hdos, ?_, ?_,
      hfilter⟩
    · intro h
      rw [hpos] at h
      simp only [is_rule_applicable, hdos, h]
      simp
    · by_cases hlen : (doms.filter (fun d => d.2 = true)).length = 0
      · have hnil : positiveDomains rule = [] := by
          rw [hpos]
          exact List.length_eq_zero.mp hlen
        have happ : is_rule_applicable rule hostname = true := by
          simp only [is_rule_applicable, hdos, hlen]
          simp
        simp [happ, hnil]
      · have happ : is_rule_applicable rule hostname =
            (doms.filter (fun d => d.2 = true)).any
              (fun d => pyIn d.1 hostname) := by
          simp only [is_rule_applicable, hdos, hlen]
          simp [hlen]
        rw [happ, hpos]
        constructor
        · intro h
          right
          simpa using List.any_eq_true.mp h
        · rintro (h | h)
          · exact absurd (List.length_eq_zero.mpr h) hlen
          · exact List.any_eq_true.mpr (by simpa using h)

/-- Witness for C2 at a concrete rule and hostname. -/
theorem rule_applicability_characterization_witness :
    is_rule_applicable ⟨"#c", [("domain", [(['a'], true)])]⟩ ['b', 'a'] = true ↔
      (positiveDomains ⟨"#c", [("domain", [(['a'], true)])]⟩ = [] ∨
       ∃ d ∈ positiveDomains ⟨"#c", [("domain", [(['a'], true)])]⟩,
         pyIn d.1 ['b', 'a'] = true) :=
  (rule_applicability_characterization ⟨"#c", [("domain", [(['a'], true)])]⟩
    ['b', 'a'] (by decide)).2.2.1

/-! ## C10: only the first `domain` option matters (confirmed) -/

/-- **C10**: `_is_rule_applicable` consults only the first `domain` option:
two rules whose options lists agree on the first `domain` entry are
applicable to exactly the same hostnames, whatever `domain` entries follow. -/
theorem rule_applicability_first_domain_only
    (r1 r2 : FilterRule) (hostname : List Char)
    (hhead : (r1.options.filter (fun kv => kv.1 = "domain")).head? =
             (r2.options.filter (fun kv => kv.1 = "domain")).head?) :
    is_rule_applicable r1 hostname = is_rule_applicable r2 hostname := by
  rcases h1 : r1.options.filter (fun kv => kv.1 = "domain") with _ | ⟨a, t1⟩ <;>
    rcases h2 : r2.options.filter (fun kv => kv.1 = "domain") with _ | ⟨b, t2⟩ <;>
    rw [h1, h2] at hhead <;> simp only [List.head?] at hhead
  · simp only [is_rule_applicable, h1, h2]
  · exact absurd hhead (by simp)
  · exact absurd hhead (by simp)
  · obtain rfl : a = b := by simpa using hhead
    obtain ⟨k, doms⟩ := a
    simp only [is_rule_applicable, h1, h2]

/-- Witness for C10: a second `domain` option (here an applicable domain
that does occur in the hostname) does not change the verdict. -/
theorem rule_applicability_first_domain_only_witness :
    is_rule_applicable
      ⟨"#c", [("domain", [(['a'], false)]), ("domain", [(['h'], true)])]⟩
      ['h'] =
    is_rule_applicable ⟨"#c", [("domain", [(['a'], false)])]⟩ ['h'] :=
  rule_applicability_first_domain_only
    ⟨"#c", [("domain", [(['a'], false)]), ("domain", [(['h'], true)])]⟩
    ⟨"#c", [("domain", [(['a'], false)])]⟩ ['h'] (by decide)

/-! ## C3: primary-request failure marking (confirmed) -/

/-- **C3**: for the primary navigation request (the first requestId
observed, as recorded by `_event_request_will_be_sent`): a final response
with status in `[400, 599]` marks the page failed with reason exactly
``"status code `{status}`"``; a `loadingFailed` event marks it failed with
reason exactly ``"loading failed `{errorText}`"``; responses and loading
failures on any other requestId never change the failed flag or reason. -/
theorem primary_request_failure_marking :
    (∀ st url mime status headers rid,
      st.requestId = some rid → 400 ≤ status → status ≤ 599 →
      (event_response_received st url mime status headers rid).webpage.failed
          = true ∧
      (event_response_received st url mime status headers
          rid).webpage.failed_reason =
        some ("status code `" ++ (pyStr status).asString ++ "`")) ∧
    (∀ st rid errorText,
      st.requestId = some rid →
      (event_loading_failed st rid errorText).webpage.failed = true ∧
      (event_loading_failed st rid errorText).webpage.failed_reason =
        some ("loading failed `" ++ errorText ++ "`")) ∧
    (∀ st url mime status headers rid rid2,
      st.requestId = some rid → rid2 ≠ rid →
      (event_response_received st url mime status headers rid2).webpage.failed
          = st.webpage.failed ∧
      (event_response_received st url mime status headers
          rid2).webpage.failed_reason = st.webpage.failed_reason) ∧
    (∀ st rid rid2 errorText,
      st.requestId = some rid → rid2 ≠ rid →
      event_loading_failed st rid2 errorText = st) ∧
    (∀ st url rid, st.requestId = none →
      (event_request_will_be_sent st url rid).requestId = some rid) ∧
    (∀ st url rid rid0, st.requestId = some rid0 →
      (event_request_will_be_sent st url rid).requestId = some rid0) := by
  refine ⟨?_, ?_, ?_, ?_, ?_, ?_⟩
  · intro st url mime status headers rid hprim h4 h5
    have hcond : st.requestId = some rid ∧
        (pyStartswith (pyStr status) ['4'] ||
         pyStartswith (pyStr status) ['5']) = true :=
      ⟨hprim, startswith_of_status_in_range status h4 h5⟩
    simp [event_response_received, hcond, Webpage.add_response,
      Webpage.set_failed]
  · intro st rid errorText hprim
    simp [event_loading_failed, hprim, Webpage.set_failed]
  · intro st url mime status headers rid rid2 hprim hne
    simp only [event_response_received]
    split
    · next hif =>
      rw [hprim] at hif
      exact absurd (Option.some_injective _ hif.1).symm hne
    · exact ⟨rfl, rfl⟩
  · intro st rid rid2 errorText hprim hne
    simp only [event_loading_failed]
    split
    · next hif =>
      rw [hprim] at hif
      exact absurd (Option.some_injective _ hif).symm hne
    · rfl
  · intro st url rid h
    simp [event_request_will_be_sent, Webpage.add_request, h]
  · intro st url rid rid0 h
    simp [event_request_will_be_sent, Webpage.add_request, h]

/-- Witness for C3: a `404` final response on the primary request marks the
page failed with reason ``"status code `404`"``. -/
theorem primary_request_failure_marking_witness :
    (event_response_received ⟨some 1, false, {}⟩ "https://example.com/"
        "text/html" 404 [] 1).webpage.failed = true ∧
    (event_response_received ⟨some 1, false, {}⟩ "https://example.com/"
        "text/html" 404 [] 1).webpage.failed_reason =
      some "status code `404`" := by
  have h := primary_request_failure_marking.1 ⟨some 1, false, {}⟩
    "https://example.com/" "text/html" 404 [] 1 rfl (by decide) (by decide)
  exact ⟨h.1, h.2.trans (by decide)⟩

/-! ## C4: fixed-parent promotion (confirmed) -/

/-- On a parent chain described by `ancestorPath`, the injected walk
returns the first fixed-positioned element of the chain, or the terminal
(document-parented) element when there is none. -/
theorem findFixedParentJs_eq_of_path (dom : Nat → FfNode) :
    ∀ fuel elemId chain term,
      ancestorPath dom fuel elemId = some (chain, term) →
      findFixedParentJs dom fuel elemId =
        some ((chain.find?
          (fun n => decide ((dom n).position = "fixed"))).getD term) := by
  intro fuel
  induction fuel with
  | zero =>
    intro e c t h
    exact absurd h (by simp [ancestorPath])
  | succ f ih =>
    intro e c t h
    simp only [ancestorPath] at h
    cases hp : (dom e).parent with
    | none =>
      rw [hp] at h
      obtain ⟨rfl, rfl⟩ := Prod.mk.injEq .. ▸ (Option.some_injective _ h)
      simp [findFixedParentJs, hp]
    | some p =>
      rw [hp] at h
      rcases Option.map_eq_some'.mp h with ⟨⟨c', t'⟩, hrec, heq⟩
      obtain ⟨rfl, rfl⟩ := Prod.mk.injEq .. ▸ heq
      simp only [findFixedParentJs, hp]
      by_cases hfix : (dom e).position = "fixed"
      · rw [if_pos hfix, List.find?_cons_of_pos _ (by simp [hfix])]
        rfl
      · rw [if_neg hfix, ih p c' t' hrec,
          List.find?_cons_of_neg _ (by simp [hfix])]

/-- **C4**: from every seed, `find_fixed_parent` returns the first ancestor
(starting at the seed) whose computed position is `fixed`; if the walk
instead reaches the `html` element, the seed yields no candidate when that
`html` belongs to the root frame, and yields the frame-owner element in the
parent document when it belongs to a child frame.  The chain hypothesis
records a well-formed document: only the document-parented terminal is
named `html`. -/
theorem fixed_parent_promotion
    (dom : Nat → FfNode) (rootFrameId : Nat) (frameOwner : Nat → Nat)
    (fuel seed : Nat) (chain : List Nat) (term : Nat)
    (hpath : ancestorPath dom fuel seed = some (chain, term))
    (hchain : ∀ n ∈ chain, pyLower (dom n).nodeName ≠ "html")
    (hterm : pyLower (dom term).nodeName = "html") :
    (∀ f, chain.find? (fun n => decide ((dom n).position = "fixed")) = some f →
      find_fixed_parent dom rootFrameId frameOwner fuel seed =
        some ⟨true, some f⟩) ∧
    (chain.find? (fun n => decide ((dom n).position = "fixed")) = none →
      ((dom term).frameId = rootFrameId →
        find_fixed_parent dom rootFrameId frameOwner fuel seed =
          some ⟨false, none⟩) ∧
      ((dom term).frameId ≠ rootFrameId →
        find_fixed_parent dom rootFrameId frameOwner fuel seed =
          some ⟨true, some (frameOwner (dom term).frameId)⟩)) := by
  have hjs := findFixedParentJs_eq_of_path dom fuel seed chain term hpath
  constructor
  · intro f hf
    have hmem := List.mem_of_find?_eq_some hf
    have hnothtml := hchain f hmem
    rw [find_fixed_parent, hjs, hf]
    simp [Option.map, hnothtml]
  · intro hnone
    rw [find_fixed_parent, hjs, hnone]
    constructor
    · intro hroot
      simp [Option.map, hterm, hroot]
    · intro hroot
      simp only [Option.map, Option.getD_none]
      rw [if_pos hterm, if_neg (Ne.symm hroot)]

/-- Witness for C4: on the concrete chains, the fixed div is promoted, and
the child-frame seed yields the frame owner reported by `DOM.getFrameOwner`
(here node 99) rather than the frame's own `html`. -/
theorem fixed_parent_promotion_witness :
    find_fixed_parent ffDomFixed 0 (fun _ => 99) 3 0 = some ⟨true, some 1⟩ ∧
    find_fixed_parent ffDomIframe 0 (fun _ => 99) 3 0 =
      some ⟨true, some 99⟩ :=
  ⟨(fixed_parent_promotion ffDomFixed 0 (fun _ => 99) 3 0 [0, 1] 2 (by decide)
      (by decide) (by decide)).1 1 (by decide),
   (fixed_parent_promotion ffDomIframe 0 (fun _ => 99) 3 0 [0] 1 (by decide)
      (by decide) (by decide)).2 (by decide) |>.2 (by decide)⟩

/-! ## C5: full-width promotion (confirmed) -/

/-- **C5**: after the upward walk stops at element `e`, that element is
returned iff its computed (outer) width is at least
`parseInt(getComputedStyle(document.body).width)`, otherwise the seed
yields no candidate; consequently every candidate produced by the
full-width strategy has width at least the body's width. -/
theorem full_width_promotion
    (dom : Nat → FwNode) (bodyWidth : Int) (fuel seed e : Nat)
    (hwalk : findFullWidthWalk dom fuel seed = some e) :
    (bodyWidth ≤ (dom e).getWidth →
      find_full_width_parent dom bodyWidth fuel seed =
        some ⟨true, some e⟩) ∧
    ((dom e).getWidth < bodyWidth →
      find_full_width_parent dom bodyWidth fuel seed =
        some ⟨false, none⟩) ∧
    (∀ ids p,
      p ∈ find_cookie_notices_by_full_width_parent_dom dom bodyWidth fuel ids
      → bodyWidth ≤ (dom p).getWidth) := by
  refine ⟨?_, ?_, ?_⟩
  · intro h
    simp [find_full_width_parent, findFullWidthParentJs, hwalk, h]
  · intro h
    simp [find_full_width_parent, findFullWidthParentJs, hwalk,
      not_le.mpr h]
  · intro ids p hp
    simp only [find_cookie_notices_by_full_width_parent_dom,
      List.mem_dedup] at hp
    rcases List.mem_filterMap.mp hp with ⟨n, -, hn⟩
    cases hw : findFullWidthWalk dom fuel n with
    | none =>
      rw [find_full_width_parent, findFullWidthParentJs, hw] at hn
      simp at hn
    | some e2 =>
      rw [find_full_width_parent, findFullWidthParentJs, hw] at hn
      simp only [Option.map_some'] at hn
      by_cases hb : bodyWidth ≤ (dom e2).getWidth
      · rw [if_pos hb] at hn
        simp at hn
        rw [← hn]
        exact hb
      · rw [if_neg hb] at hn
        simp at hn

/-- Witness for C5: on the concrete chain the walk stops at the seed, whose
outer width 100 is at least the body width 80, so it is returned. -/
theorem full_width_promotion_witness :
    find_full_width_parent fwDomExample 80 2 0 = some ⟨true, some 0⟩ :=
  (full_width_promotion fwDomExample 80 2 0 0 (by decide)).1 (by decide)

/-! ## C6: visibility predicate (confirmed) -/

/-- **C6**: the visibility predicate returns invisible for a node with
`display:none` regardless of its children; for a node that passes the hard
style checks but is itself zero-size (tentatively invisible) and has a
recursively visible child, it returns visible together with the handle of
that first visible descendant; and the screenshot caller substitutes that
descendant handle into the candidate set in place of the original node. -/
theorem visibility_predicate :
    (∀ env id st g cs, st.display = "none" →
      isVisible env (.elem id st g cs) = none) ∧
    (∀ env id st g cs v,
      st.display ≠ "none" →
      Rat.blt st.opacity (mkRat 1 10) = false →
      st.visibility = "visible" →
      g.offsetWidth = 0 → g.offsetHeight = 0 →
      g.rectWidth = 0 → g.rectHeight = 0 →
      firstVisibleChild env cs = some v →
      isVisible env (.elem id st g cs) = some v ∧
      is_node_visible env (.elem id st g cs) = ⟨true, some v⟩) ∧
    (∀ env pre post n v, isVisible env n = some v →
      visible_nodes_selection env (pre ++ n :: post) =
        visible_nodes_selection env pre ++ v ::
          visible_nodes_selection env post) := by
  refine ⟨?_, ?_, ?_⟩
  · intro env id st g cs h
    simp [isVisible, h]
  · intro env id st g cs v hdisp hop hvis how hoh hrw hrh hchild
    have hvisz : isVisible env (.elem id st g cs) = some v := by
      rw [isVisible, if_neg hdisp]
      rw [hop]
      simp only [Bool.false_eq_true, if_false]
      rw [if_neg (by simp [hvis])]
      simp [how, hoh, hrw, hrh, hchild]
    exact ⟨hvisz, by rw [is_node_visible, hvisz]⟩
  · intro env pre post n v h
    simp only [visible_nodes_selection, List.map_append, List.map_cons,
      List.filterMap_append, List.filterMap_cons, is_node_visible, h]
    rfl

/-- Witness for C6: a zero-size wrapper whose only child is a visible 10×10
element yields the child's handle (node 5), and the caller's selection
substitutes 5 for the wrapper. -/
theorem visibility_predicate_witness :
    isVisible ⟨100, 100, fun _ _ => [5]⟩
      (.elem 1 ⟨"block", mkRat 1 1, "visible"⟩ ⟨0, 0, 0, 0, 0, 0⟩
        [.elem 5 ⟨"block", mkRat 1 1, "visible"⟩ ⟨10, 10, 5, 5, 10, 10⟩ []])
      = some 5 ∧
    is_node_visible ⟨100, 100, fun _ _ => [5]⟩
      (.elem 1 ⟨"block", mkRat 1 1, "visible"⟩ ⟨0, 0, 0, 0, 0, 0⟩
        [.elem 5 ⟨"block", mkRat 1 1, "visible"⟩ ⟨10, 10, 5, 5, 10, 10⟩ []])
      = ⟨true, some 5⟩ :=
  visibility_predicate.2.1 ⟨100, 100, fun _ _ => [5]⟩ 1
    ⟨"block", mkRat 1 1, "visible"⟩ ⟨0, 0, 0, 0, 0, 0⟩
    [.elem 5 ⟨"block", mkRat 1 1, "visible"⟩ ⟨10, 10, 5, 5, 10, 10⟩ []] 5
    (by decide) (by decide) rfl rfl rfl rfl rfl (by decide)

/-! ## Webpage-record preservation lemmas -/

/-- A Python dict assignment never leaves the dict empty. -/
theorem dictSet_ne_nil {β : Type} (m : List (String × β)) (k : String)
    (v : β) : dictSet m k v ≠ [] := by
  unfold dictSet
  split
  · next h =>
    intro hmap
    rw [List.map_eq_nil_iff] at hmap
    subst hmap
    simp at h
  · simp

/-- The screenshot fold does not change the `failed` flag. -/
theorem foldl_take_screenshot_failed (data name : String) :
    ∀ (l : List (Nat × Nat)) (w : Webpage),
      (l.foldl (fun w p =>
        take_screenshot data w (name ++ "-" ++ (pyStr p.1).asString))
        w).failed = w.failed := by
  intro l
  induction l with
  | nil => intro w; rfl
  | cons a l ih => intro w; rw [List.foldl_cons, ih]; rfl

/-- The screenshot fold keeps the screenshots map non-empty. -/
theorem foldl_take_screenshot_ne_nil (data name : String) :
    ∀ (l : List (Nat × Nat)) (w : Webpage), w.screenshots ≠ [] →
      (l.foldl (fun w p =>
        take_screenshot data w (name ++ "-" ++ (pyStr p.1).asString))
        w).screenshots ≠ [] := by
  intro l
  induction l with
  | nil => intro w h; exact h
  | cons a l ih =>
    intro w h
    rw [List.foldl_cons]
    exact ih _ (dictSet_ne_nil _ _ _)

/-- `set_cookies` leaves the `failed` flag unchanged. -/
theorem set_cookies_failed (w : Webpage) (k : String) (cs : List Cookie) :
    (w.set_cookies k cs).failed = w.failed := rfl

/-- `set_cookies` leaves the screenshots map unchanged. -/
theorem set_cookies_screenshots (w : Webpage) (k : String)
    (cs : List Cookie) : (w.set_cookies k cs).screenshots = w.screenshots :=
  rfl

/-- `take_screenshots_of_nodes` leaves the `failed` flag unchanged. -/
theorem take_screenshots_of_nodes_failed (data name : String)
    (l : List Nat) (w : Webpage) :
    (take_screenshots_of_nodes data w name l).failed = w.failed := by
  rw [take_screenshots_of_nodes, foldl_take_screenshot_failed]

/-- `take_screenshots_of_nodes` keeps the screenshots map non-empty. -/
theorem take_screenshots_of_nodes_ne_nil (data name : String)
    (l : List Nat) (w : Webpage) (h : w.screenshots ≠ []) :
    (take_screenshots_of_nodes data w name l).screenshots ≠ [] := by
  rw [take_screenshots_of_nodes]
  exact foldl_take_screenshot_ne_nil _ _ _ _ h

/-! ## C7: unsupported-language gate (confirmed) -/

/-- **C7**: when the detected language is neither `en` nor `de`, the page
is marked skipped with reason exactly ``"unimplemented language `L`"`` and
detection returns at once: the only operation performed is the language
probe — no CMP probe, no candidate search, no screenshots, no cookie
purge — and the screenshots, cookies and CMP fields are untouched. -/
theorem language_gate {σ : Type} (env : DetectEnv σ) (fuel : Nat)
    (w : Webpage) (s : σ)
    (hen : env.language ≠ "en") (hde : env.language ≠ "de") :
    ∃ w2, detect_cookie_notices env fuel w s =
        some (w2, s, [TabOp.langProbe]) ∧
      w2 = (w.set_language env.language).set_skipped
        ("unimplemented language `" ++ env.language ++ "`") ∧
      w2.screenshots = w.screenshots ∧
      w2.cookies = w.cookies ∧
      w2.is_cmp_defined = w.is_cmp_defined ∧
      w2.skipped = true ∧
      w2.skipped_reason =
        some ("unimplemented language `" ++ env.language ++ "`") := by
  refine ⟨_, ?_, rfl, rfl, rfl, rfl, rfl, rfl⟩
  simp only [detect_cookie_notices, if_pos (And.intro hen hde)]

/-- Witness for C7 at the Japanese-language environment. -/
theorem language_gate_witness :
    ∃ w2, detect_cookie_notices jaEnv 5 ({} : Webpage) () =
        some (w2, (), [TabOp.langProbe]) ∧
      w2 = (Webpage.set_language {} jaEnv.language).set_skipped
        ("unimplemented language `" ++ jaEnv.language ++ "`") ∧
      w2.screenshots = ({} : Webpage).screenshots ∧
      w2.cookies = ({} : Webpage).cookies ∧
      w2.is_cmp_defined = ({} : Webpage).is_cmp_defined ∧
      w2.skipped = true ∧
      w2.skipped_reason =
        some ("unimplemented language `" ++ jaEnv.language ++ "`") :=
  language_gate jaEnv 5 {} () (by decide) (by decide)

/-! ## C1: outcome flags do not short-circuit detection (corrected)

`detect_cookie_notices` never consults `failed` / `skipped` /
`stopped_waiting`: its only early return is the language gate.  A page
marked failed by a `404` on the primary request still runs the whole
pipeline, and its screenshots map ends up non-empty. -/

/-- Counterexample to C1 as stated: after the primary request got a `404`
final response the failed flag is set, yet detection (language `en`) still
runs and the final screenshots map is not empty. -/
theorem detection_runs_despite_failed_flag :
    failedNavState.webpage.failed = true ∧
    (detect_cookie_notices enEnv 1 failedNavState.webpage ()).map
      (fun r => r.1.failed) = some true ∧
    (detect_cookie_notices enEnv 1 failedNavState.webpage ()).map
      (fun r => r.1.screenshots.isEmpty) = some false := by
  refine ⟨rfl, rfl, rfl⟩

/-- **C1 (amended)**: outcome flags set before detection do not
short-circuit it.  For any page already marked failed, if the detected
language is supported (`en`) the pipeline still runs: the CMP probe is
performed, screenshots are taken (the map becomes non-empty), and the
failed flag survives.  (The jar hypothesis makes the final purge loop
terminate in one pass.) -/
theorem detection_ignores_outcome_flags {σ : Type} (env : DetectEnv σ)
    (fuel : Nat) (w : Webpage) (s : σ)
    (hfail : w.failed = true)
    (hlang : env.language = "en")
    (hjar : env.jar.getAllCookies s = [])
    (hfuel : 1 ≤ fuel) :
    ∃ w2 s2 ops, detect_cookie_notices env fuel w s = some (w2, s2, ops) ∧
      w2.failed = true ∧
      w2.screenshots ≠ [] ∧
      TabOp.cmpProbe ∈ ops := by
  rcases fuel with _ | f
  · omega
  have hgate : ¬(env.language ≠ "en" ∧ env.language ≠ "de") :=
    fun h => h.1 hlang
  have hdel : delete_all_cookies env.jar (f + 1) s = some s := by
    rw [delete_all_cookies]
    simp [hjar]
  simp only [detect_cookie_notices, if_neg hgate, hdel]
  refine ⟨_, s, _, rfl, ?_, ?_, by simp⟩
  · simp only [set_cookies_failed, take_screenshots_of_visible_nodes,
      take_screenshots_of_nodes_failed]
    exact hfail
  · simp only [set_cookies_screenshots, take_screenshots_of_visible_nodes]
    refine take_screenshots_of_nodes_ne_nil _ _ _ _ ?_
    refine take_screenshots_of_nodes_ne_nil _ _ _ _ ?_
    refine take_screenshots_of_nodes_ne_nil _ _ _ _ ?_
    exact dictSet_ne_nil _ _ _

/-- Witness for the amended C1 at the concrete failed-navigation state. -/
theorem detection_ignores_outcome_flags_witness :
    ∃ w2 s2 ops,
      detect_cookie_notices enEnv 1 failedNavState.webpage () =
        some (w2, s2, ops) ∧
      w2.failed = true ∧
      w2.screenshots ≠ [] ∧
      TabOp.cmpProbe ∈ ops :=
  detection_ignores_outcome_flags enEnv 1 failedNavState.webpage ()
    (by decide) rfl rfl (by decide)

/-! ## C8: cookie purge loop (corrected)

`_delete_all_cookies` has no pass cap and no warning: it iterates while
`getAllCookies()` is non-empty, forever if need be. -/

/-- Counterexample to C8 as stated: on a jar that deletions do not empty,
the loop has completed neither within 17 passes (already more than the
claimed 16-pass cap) nor within 100. -/
theorem cookie_purge_no_cap :
    delete_all_cookies stickyJar 17 () = none ∧
    delete_all_cookies stickyJar 100 () = none := by
  exact ⟨rfl, rfl⟩

/-- **C8 (amended)**: the purge loop is uncapped and emits no warning; it
terminates exactly when some pass observes an empty jar: if the jar is
empty after `n` passes the loop returns within `n + 1` iterations, and
whenever it returns, the jar it leaves behind is empty. -/
theorem cookie_purge_terminates_iff {σ : Type} (ops : CookieJarOps σ) :
    (∀ n s, (ops.getAllCookies ((delete_pass ops)^[n] s)).length = 0 →
      (delete_all_cookies ops (n + 1) s).isSome) ∧
    (∀ fuel s s2, delete_all_cookies ops fuel s = some s2 →
      (ops.getAllCookies s2).length = 0) := by
  constructor
  · intro n
    induction n with
    | zero =>
      intro s h
      rw [delete_all_cookies]
      simp only [Function.iterate_zero, id_eq] at h
      simp [h]
    | succ n ih =>
      intro s h
      rw [delete_all_cookies]
      by_cases hz : (ops.getAllCookies s).length = 0
      · simp [hz]
      · rw [if_pos hz]
        rw [Function.iterate_succ_apply] at h
        exact ih (delete_pass ops s) h
  · intro fuel
    induction fuel with
    | zero => intro s s2 h; exact absurd h (by simp [delete_all_cookies])
    | succ fuel ih =>
      intro s s2 h
      rw [delete_all_cookies] at h
      by_cases hz : (ops.getAllCookies s).length = 0
      · rw [if_neg (by simpa using hz)] at h
        obtain rfl := Option.some_injective _ h
        exact hz
      · rw [if_pos hz] at h
        exact ih _ _ h

/-- Witness for the amended C8: on an already-empty jar the loop returns on
its first pass. -/
theorem cookie_purge_terminates_iff_witness :
    (delete_all_cookies emptyJar 1 ()).isSome :=
  (cookie_purge_terminates_iff emptyJar).1 0 () (by decide)

/-! ## C9: the triple-lock protocol (lemma stack) -/

/-- Characterization of one enabled step: the worker exists, its
instruction is defined, its program counter advances by one, and the lock
owners change according to the instruction. -/
theorem stepW_char (s : LockSys) (i : Nat) (s2 : LockSys)
    (h : stepW s i = some s2) :
    ∃ w ins, s.workers[i]? = some w ∧ progOf w.kind w.pc = some ins ∧
      s2.workers = s.workers.set i ⟨w.kind, w.pc + 1⟩ ∧
      ((∃ lkE, ins = .acq lkE ∧ s.owner lkE = none ∧
          ∀ lk2, s2.owner lk2 =
            if lk2 = lkE then some i else s.owner lk2) ∨
       (∃ lkE, ins = .rel lkE ∧
          ∀ lk2, s2.owner lk2 = if lk2 = lkE then none else s.owner lk2) ∨
       (ins = .work ∧ ∀ lk2, s2.owner lk2 = s.owner lk2)) := by
  unfold stepW at h
  cases hw : s.workers[i]? with
  | none => rw [hw] at h; simp at h
  | some w =>
    rw [hw] at h
    dsimp only at h
    cases hins : progOf w.kind w.pc with
    | none => rw [hins] at h; simp at h
    | some ins =>
      rw [hins] at h
      dsimp only at h
      cases ins with
      | acq lkE =>
        simp only at h
        split at h
        · next ho =>
          obtain rfl := Option.some_injective _ h
          refine ⟨w, .acq lkE, rfl, hins, ?_,
            Or.inl ⟨lkE, rfl, ho, ?_⟩⟩
          · cases lkE <;> rfl
          · intro lk2
            cases lkE <;> cases lk2 <;>
              simp [LockSys.setOwner, LockSys.owner]
        · cases h
      | rel lkE =>
        simp only at h
        obtain rfl := Option.some_injective _ h
        refine ⟨w, .rel lkE, rfl, hins, ?_, Or.inr (Or.inl ⟨lkE, rfl, ?_⟩)⟩
        · cases lkE <;> rfl
        · intro lk2
          cases lkE <;> cases lk2 <;>
            simp [LockSys.setOwner, LockSys.owner]
      | work =>
        simp only at h
        obtain rfl := Option.some_injective _ h
        exact ⟨w, .work, rfl, hins, rfl, Or.inr (Or.inr ⟨rfl, fun _ => rfl⟩)⟩

/-- A step does not change the identity of untouched workers and preserves
an `OwnerInv` whose region does not change for the stepping worker. -/
theorem ownerInv_unchanged (ow : Option Nat) (region : WorkerSt → Bool)
    (ws : List WorkerSt) (i : Nat) (w w2 : WorkerSt)
    (hw : ws[i]? = some w) (hr : region w = region w2)
    (hO : OwnerInv ow region ws) : OwnerInv ow region (ws.set i w2) := by
  intro j
  rcases eq_or_ne j i with rfl | hne
  · rcases List.getElem?_eq_some.mp hw with ⟨hlen, -⟩
    constructor
    · intro hj
      rcases (hO j).mp hj with ⟨w', hw', hr'⟩
      rw [hw] at hw'
      obtain rfl := Option.some_injective _ hw'
      exact ⟨w2, by rw [List.getElem?_set_self hlen], hr ▸ hr'⟩
    · rintro ⟨w', hw', hr'⟩
      rw [List.getElem?_set_self hlen] at hw'
      obtain rfl := Option.some_injective _ hw'
      exact (hO j).mpr ⟨w, hw, hr.trans hr'⟩
  · constructor
    · intro hj
      rcases (hO j).mp hj with ⟨w', hw', hr'⟩
      exact ⟨w', by rw [List.getElem?_set_ne (Ne.symm hne)]; exact hw', hr'⟩
    · rintro ⟨w', hw', hr'⟩
      rw [List.getElem?_set_ne (Ne.symm hne)] at hw'
      exact (hO j).mpr ⟨w', hw', hr'⟩

/-- Acquiring: when nobody is in the region, moving worker `i` into it
makes `i` the owner. -/
theorem ownerInv_acq (region : WorkerSt → Bool) (ws : List WorkerSt)
    (i : Nat) (w w2 : WorkerSt) (hw : ws[i]? = some w)
    (hr2 : region w2 = true) (hO : OwnerInv none region ws) :
    OwnerInv (some i) region (ws.set i w2) := by
  intro j
  rcases eq_or_ne j i with rfl | hne
  · rcases List.getElem?_eq_some.mp hw with ⟨hlen, -⟩
    constructor
    · intro _
      exact ⟨w2, by rw [List.getElem?_set_self hlen], hr2⟩
    · intro _
      rfl
  · constructor
    · intro hj
      exact absurd (Option.some_injective _ hj).symm hne
    · rintro ⟨w', hw', hr'⟩
      rw [List.getElem?_set_ne (Ne.symm hne)] at hw'
      exact absurd ((hO j).mpr ⟨w', hw', hr'⟩) (by simp)

/-- Releasing: when `i` owns the region, moving `i` out of it frees the
lock. -/
theorem ownerInv_rel (region : WorkerSt → Bool) (ws : List WorkerSt)
    (i : Nat) (w w2 : WorkerSt) (hw : ws[i]? = some w)
    (hr2 : region w2 = false) (hO : OwnerInv (some i) region ws) :
    OwnerInv none region (ws.set i w2) := by
  intro j
  constructor
  · intro hj
    exact absurd hj (by simp)
  · rintro ⟨w', hw', hr'⟩
    rcases eq_or_ne j i with rfl | hne
    · rcases List.getElem?_eq_some.mp hw with ⟨hlen, -⟩
      rw [List.getElem?_set_self hlen] at hw'
      obtain rfl := Option.some_injective _ hw'
      rw [hr2] at hr'
      cases hr'
    · rw [List.getElem?_set_ne (Ne.symm hne)] at hw'
      exact absurd (Option.some_injective _ ((hO j).mpr ⟨w', hw', hr'⟩)).symm
        hne

/-- How the `lock_l` region relates to the program table. -/
theorem progTable_holdsL (k : WKind) (p : Nat) (ins : Instr)
    (h : progOf k p = some ins) :
    ((ins ≠ .acq .l ∧ ins ≠ .rel .l → holdsL ⟨k, p⟩ = holdsL ⟨k, p + 1⟩) ∧
     (ins = .acq .l → holdsL ⟨k, p⟩ = false ∧ holdsL ⟨k, p + 1⟩ = true) ∧
     (ins = .rel .l → holdsL ⟨k, p⟩ = true ∧ holdsL ⟨k, p + 1⟩ = false)) := by
  cases k <;> rcases p with _ | _ | _ | _ | _ | _ | _ | p <;>
    simp only [progOf, Option.some.injEq, reduceCtorEq] at h <;>
    subst h <;> decide

/-- How the `lock_m` region relates to the program table. -/
theorem progTable_holdsM (k : WKind) (p : Nat) (ins : Instr)
    (h : progOf k p = some ins) :
    ((ins ≠ .acq .m ∧ ins ≠ .rel .m → holdsM ⟨k, p⟩ = holdsM ⟨k, p + 1⟩) ∧
     (ins = .acq .m → holdsM ⟨k, p⟩ = false ∧ holdsM ⟨k, p + 1⟩ = true) ∧
     (ins = .rel .m → holdsM ⟨k, p⟩ = true ∧ holdsM ⟨k, p + 1⟩ = false)) := by
  cases k <;> rcases p with _ | _ | _ | _ | _ | _ | _ | p <;>
    simp only [progOf, Option.some.injEq, reduceCtorEq] at h <;>
    subst h <;> decide

/-- How the `lock_n` region relates to the program table. -/
theorem progTable_holdsN (k : WKind) (p : Nat) (ins : Instr)
    (h : progOf k p = some ins) :
    ((ins ≠ .acq .n ∧ ins ≠ .rel .n → holdsN ⟨k, p⟩ = holdsN ⟨k, p + 1⟩) ∧
     (ins = .acq .n → holdsN ⟨k, p⟩ = false ∧ holdsN ⟨k, p + 1⟩ = true) ∧
     (ins = .rel .n → holdsN ⟨k, p⟩ = true ∧ holdsN ⟨k, p + 1⟩ = false)) := by
  cases k <;> rcases p with _ | _ | _ | _ | _ | _ | _ | p <;>
    simp only [progOf, Option.some.injEq, reduceCtorEq] at h <;>
    subst h <;> decide

/-- One step preserves the owner invariant of a single lock whose region
relates to the program table as in the `progTable` lemmas. -/
theorem ownerInv_step_generic (lk : LockId) (region : WorkerSt → Bool)
    (hregion : ∀ k p ins, progOf k p = some ins →
      ((ins ≠ .acq lk ∧ ins ≠ .rel lk →
          region ⟨k, p⟩ = region ⟨k, p + 1⟩) ∧
       (ins = .acq lk → region ⟨k, p⟩ = false ∧ region ⟨k, p + 1⟩ = true) ∧
       (ins = .rel lk → region ⟨k, p⟩ = true ∧ region ⟨k, p + 1⟩ = false)))
    (s s2 : LockSys) (i : Nat)
    (hO : OwnerInv (s.owner lk) region s.workers)
    (h : stepW s i = some s2) :
    OwnerInv (s2.owner lk) region s2.workers := by
  obtain ⟨w, ins, hw, hins, hworkers, heff⟩ := stepW_char s i s2 h
  obtain ⟨k, p⟩ := w
  obtain ⟨hun, hacq, hrel⟩ := hregion k p ins hins
  rcases heff with ⟨lkE, rfl, ho, hown⟩ | ⟨lkE, rfl, hown⟩ | ⟨rfl, hown⟩
  · by_cases hlk : lk = lkE
    · subst hlk
      rw [hown lk, if_pos rfl, hworkers]
      obtain ⟨-, h2⟩ := hacq rfl
      rw [ho] at hO
      exact ownerInv_acq region s.workers i ⟨k, p⟩ ⟨k, p + 1⟩ hw h2 hO
    · rw [hown lk, if_neg hlk, hworkers]
      refine ownerInv_unchanged _ region _ i _ ⟨k, p + 1⟩ hw ?_ hO
      exact hun ⟨fun hh => hlk (by cases hh; rfl), fun hh => nomatch hh⟩
  · by_cases hlk : lk = lkE
    · subst hlk
      rw [hown lk, if_pos rfl, hworkers]
      obtain ⟨h1, h2⟩ := hrel rfl
      have hOi : s.owner lk = some i := (hO i).mpr ⟨⟨k, p⟩, hw, h1⟩
      rw [hOi] at hO
      exact ownerInv_rel region s.workers i ⟨k, p⟩ ⟨k, p + 1⟩ hw h2 hO
    · rw [hown lk, if_neg hlk, hworkers]
      refine ownerInv_unchanged _ region _ i _ ⟨k, p + 1⟩ hw ?_ hO
      exact hun ⟨(fun hh => nomatch hh), fun hh => hlk (by cases hh; rfl)⟩
  · rw [hown lk, hworkers]
    refine ownerInv_unchanged _ region _ i _ ⟨k, p + 1⟩ hw ?_ hO
    exact hun ⟨(fun hh => nomatch hh), fun hh => nomatch hh⟩

/-- The workers of the initial state. -/
theorem initSys_workers (ks : List WKind) (i : Nat) :
    (initSys ks).workers[i]? = (ks[i]?).map (fun k => ⟨k, 0⟩) := by
  simp [initSys]

/-- The initial state satisfies the lock invariant. -/
theorem lockInv_init (ks : List WKind) : LockInv (initSys ks) := by
  refine ⟨?_, ?_, ?_⟩ <;>
  · intro i
    constructor
    · intro h
      simp [initSys] at h
    · rintro ⟨w, hw, hr⟩
      rw [initSys_workers] at hw
      rcases Option.map_eq_some'.mp hw with ⟨k, hk, rfl⟩
      exact absurd hr (by cases k <;> decide)

/-- One step preserves the full lock invariant. -/
theorem lockInv_step (s s2 : LockSys) (i : Nat) (hInv : LockInv s)
    (h : stepW s i = some s2) : LockInv s2 :=
  ⟨ownerInv_step_generic .l holdsL progTable_holdsL s s2 i hInv.1 h,
   ownerInv_step_generic .m holdsM progTable_holdsM s s2 i hInv.2.1 h,
   ownerInv_step_generic .n holdsN progTable_holdsN s s2 i hInv.2.2 h⟩

/-- Running a schedule preserves the lock invariant. -/
theorem lockInv_run : ∀ (tr : List Nat) (s0 s : LockSys), LockInv s0 →
    runSched s0 tr = some s → LockInv s := by
  intro tr
  induction tr with
  | nil =>
    intro s0 s h hr
    obtain rfl := Option.some_injective _ hr
    exact h
  | cons j rest ih =>
    intro s0 s h hr
    rw [runSched] at hr
    cases hs : stepW s0 j with
    | none => rw [hs] at hr; cases hr
    | some s1 =>
      rw [hs] at hr
      exact ih s1 s (lockInv_step s0 s1 j h hs) hr

/-- Schedules compose. -/
theorem runSched_append (l1 : List Nat) : ∀ (l2 : List Nat) (s0 : LockSys),
    runSched s0 (l1 ++ l2) = (runSched s0 l1).bind fun s =>
      runSched s l2 := by
  induction l1 with
  | nil => intro l2 s0; rfl
  | cons j rest ih =>
    intro l2 s0
    rw [List.cons_append, runSched, runSched]
    cases hs : stepW s0 j with
    | none => rfl
    | some s1 => exact ih l2 s1

/-- Along a successful run, a worker's kind is fixed and its program
counter advances by exactly its number of scheduled steps. -/
theorem runSched_workers : ∀ (tr : List Nat) (s0 s : LockSys),
    runSched s0 tr = some s →
    ∀ i w0, s0.workers[i]? = some w0 →
      ∃ w, s.workers[i]? = some w ∧ w.kind = w0.kind ∧
        w.pc = w0.pc + tr.count i := by
  intro tr
  induction tr with
  | nil =>
    intro s0 s h i w0 hw
    obtain rfl := Option.some_injective _ h
    exact ⟨w0, hw, rfl, by simp⟩
  | cons j rest ih =>
    intro s0 s h i w0 hw
    rw [runSched] at h
    cases hs : stepW s0 j with
    | none => rw [hs] at h; cases h
    | some s1 =>
      rw [hs] at h
      obtain ⟨w1, ins, hw1, hins, hworkers, -⟩ := stepW_char s0 j s1 hs
      rcases eq_or_ne i j with rfl | hne
      · rw [hw] at hw1
        obtain rfl := Option.some_injective _ hw1
        have hw1' : s1.workers[i]? = some ⟨w0.kind, w0.pc + 1⟩ := by
          rw [hworkers]
          rcases List.getElem?_eq_some.mp hw with ⟨hlen, -⟩
          exact List.getElem?_set_self hlen
        obtain ⟨w, hws, hk, hpc⟩ := ih s1 s h i _ hw1'
        refine ⟨w, hws, hk, ?_⟩
        rw [hpc]
        simp [List.count_cons]
        omega
      · have hw1' : s1.workers[i]? = some w0 := by
          rw [hworkers, List.getElem?_set_ne (Ne.symm hne)]
          exact hw
        obtain ⟨w, hws, hk, hpc⟩ := ih s1 s h i _ hw1'
        refine ⟨w, hws, hk, ?_⟩
        rw [hpc]
        simp [List.count_cons, hne]

/-- Occurrence counts in prefixes are monotone. -/
theorem count_take_mono (tr : List Nat) (a u v : Nat) (h : u ≤ v) :
    (tr.take u).count a ≤ (tr.take v).count a := by
  have hpre : tr.take u <+: tr.take v := by
    have : (tr.take v).take u = tr.take u := by
      rw [List.take_take, Nat.min_eq_left h]
    rw [← this]
    exact List.take_prefix u (tr.take v)
  exact hpre.sublist.count_le a

/-- If the count of `a` in the prefixes of a trace crosses the value `c`
between times `u` and `v`, then at some time in between, `a` is scheduled
with exactly `c` earlier occurrences. -/
theorem count_crossing (tr : List Nat) (a c : Nat) :
    ∀ v u, u ≤ v → (tr.take u).count a ≤ c → c < (tr.take v).count a →
      ∃ t, u ≤ t ∧ t < v ∧ tr[t]? = some a ∧ (tr.take t).count a = c := by
  intro v
  induction v with
  | zero =>
    intro u hu h1 h2
    simp at h2
  | succ v ih =>
    intro u hu h1 h2
    by_cases hcv : c < (tr.take v).count a
    · have huv : u ≤ v := by
        rcases Nat.eq_or_lt_of_le hu with rfl | hlt
        · exact absurd h2 (not_lt.mpr h1)
        · omega
      obtain ⟨t, h3, h4, h5, h6⟩ := ih u huv h1 hcv
      exact ⟨t, h3, Nat.lt_succ_of_lt h4, h5, h6⟩
    · push_neg at hcv
      rw [List.take_succ, List.count_append] at h2
      cases hv : tr[v]? with
      | none =>
        rw [hv] at h2
        simp at h2
        omega
      | some b =>
        rw [hv] at h2
        by_cases hba : a = b
        · subst hba
          simp at h2
          have hcveq : (tr.take v).count a = c := by omega
          have huv : u ≤ v := by
            by_contra hu2
            have : u = v + 1 := by omega
            subst this
            rw [List.take_succ, List.count_append, hv] at h1
            simp at h1
            omega
          exact ⟨v, huv, Nat.lt_succ_self v, hv, hcveq⟩
        · have hz : List.count a (Option.toList (some b)) = 0 := by
            rw [List.count_eq_zero]
            simp [hba]
          rw [hz] at h2
          omega

/-- `lock_l` is released only at program counter 6 of a screenshot
worker. -/
theorem progOf_rel_l_inv (k : WKind) (p : Nat)
    (h : progOf k p = some (.rel .l)) : k = .screenshot ∧ p = 6 := by
  cases k <;> rcases p with _ | _ | _ | _ | _ | _ | _ | p <;>
    simp only [progOf, Option.some.injEq, reduceCtorEq] at h <;>
    first
    | exact ⟨rfl, rfl⟩
    | cases h

/-- While the holder of `lock_l` still has steps left before its release
(program counter stays at most 6 counting its scheduled steps), no other
worker can take or free `lock_l`: the owner is stable along the run. -/
theorem ownerL_stable : ∀ (seg : List Nat) (s0 s1 : LockSys) (a : Nat),
    LockInv s0 → runSched s0 seg = some s1 → s0.ownerL = some a →
    (∀ w, s0.workers[a]? = some w → w.pc + seg.count a ≤ 6) →
    s1.ownerL = some a := by
  intro seg
  induction seg with
  | nil =>
    intro s0 s1 a hInv h hown hcnt
    obtain rfl := Option.some_injective _ h
    exact hown
  | cons j rest ih =>
    intro s0 s1 a hInv h hown hcnt
    rw [runSched] at h
    cases hs : stepW s0 j with
    | none => rw [hs] at h; cases h
    | some smid =>
      rw [hs] at h
      obtain ⟨wa, hwa, hra⟩ := (hInv.1 a).mp hown
      obtain ⟨w, ins, hw, hins, hworkers, heff⟩ := stepW_char s0 j smid hs
      have hInv2 := lockInv_step s0 smid j hInv hs
      have hwa_props : wa.kind = .screenshot ∧ 1 ≤ wa.pc ∧ wa.pc ≤ 6 := by
        simpa [holdsL] using hra
      rcases eq_or_ne j a with rfl | hne
      · rw [hwa] at hw
        obtain rfl := Option.some_injective _ hw
        have hcnt' := hcnt wa hwa
        rw [List.count_cons] at hcnt'
        simp at hcnt'
        have hpc5 : wa.pc ≤ 5 := by omega
        have hL : smid.ownerL = s0.ownerL := by
          rcases heff with ⟨lkE, hinsE, ho, hownE⟩ | ⟨lkE, hinsE, hownE⟩ |
            ⟨hinsE, hownE⟩
          · have hlkE : lkE ≠ .l := by
              rintro rfl
              rw [show s0.owner .l = s0.ownerL from rfl, hown] at ho
              cases ho
            rw [show smid.ownerL = smid.owner .l from rfl, hownE .l,
              if_neg (fun hh => hlkE hh.symm)]
            rfl
          · have hlkE : lkE ≠ .l := by
              rintro rfl
              subst hinsE
              obtain ⟨-, hp6⟩ := progOf_rel_l_inv _ _ hins
              omega
            rw [show smid.ownerL = smid.owner .l from rfl, hownE .l,
              if_neg (fun hh => hlkE hh.symm)]
            rfl
          · rw [show smid.ownerL = smid.owner .l from rfl, hownE .l]
            rfl
        apply ih smid s1 _ hInv2 h (by rw [hL]; exact hown)
        intro w' hw'
        rw [hworkers] at hw'
        rcases List.getElem?_eq_some.mp hwa with ⟨hlen, -⟩
        rw [List.getElem?_set_self hlen] at hw'
        obtain rfl := Option.some_injective _ hw'
        simp
        omega
      · have hL : smid.ownerL = s0.ownerL := by
          rcases heff with ⟨lkE, hinsE, ho, hownE⟩ | ⟨lkE, hinsE, hownE⟩ |
            ⟨hinsE, hownE⟩
          · have hlkE : lkE ≠ .l := by
              rintro rfl
              rw [show s0.owner .l = s0.ownerL from rfl, hown] at ho
              cases ho
            rw [show smid.ownerL = smid.owner .l from rfl, hownE .l,
              if_neg (fun hh => hlkE hh.symm)]
            rfl
          · have hlkE : lkE ≠ .l := by
              rintro rfl
              subst hinsE
              obtain ⟨hks, hp6⟩ := progOf_rel_l_inv _ _ hins
              have hwholds : holdsL w = true := by
                obtain ⟨k, p⟩ := w
                simp only at hks hp6
                subst hks
                subst hp6
                decide
              have hj := (hInv.1 j).mpr ⟨w, hw, hwholds⟩
              rw [hown] at hj
              exact hne (Option.some_injective _ hj).symm
            rw [show smid.ownerL = smid.owner .l from rfl, hownE .l,
              if_neg (fun hh => hlkE hh.symm)]
            rfl
          · rw [show smid.ownerL = smid.owner .l from rfl, hownE .l]
            rfl
        apply ih smid s1 a hInv2 h (by rw [hL]; exact hown)
        intro w' hw'
        rw [hworkers, List.getElem?_set_ne hne] at hw'
        have hc := hcnt w' hw'
        rw [List.count_cons] at hc
        simp [hne] at hc
        exact hc

/-- A screenshot worker's very first step is `acquire lock_l`: it requires
`lock_l` to be free and makes the worker its owner. -/
theorem acqL_first_step (st st' : LockSys) (X : Nat)
    (hw : st.workers[X]? = some ⟨.screenshot, 0⟩)
    (hstep : stepW st X = some st') :
    st.ownerL = none ∧ st'.ownerL = some X := by
  obtain ⟨w, ins, hw2, hins, -, heff⟩ := stepW_char st X st' hstep
  rw [hw] at hw2
  obtain rfl := Option.some_injective _ hw2
  simp only [progOf, Option.some.injEq] at hins
  subst hins
  rcases heff with ⟨lkE, hE, ho, hownE⟩ | ⟨lkE, hE, -⟩ | ⟨hE, -⟩
  · obtain rfl : lkE = .l := by
      injection hE with h
      exact h.symm
    refine ⟨ho, ?_⟩
    rw [show st'.ownerL = st'.owner .l from rfl, hownE .l, if_pos rfl]
  · exact absurd hE (by simp)
  · exact absurd hE (by simp)

/-- **C9**: under the triple-lock protocol, (a) at every instant of every
interleaved schedule at most one worker is inside its `lock_m` region —
the `M`-holding intervals of any two workers are disjoint — and (b) among
screenshot workers, one that performed its `lock_l` acquisition earlier
performs its `lock_m` acquisition (its third step, step index 2) before a
later-arriving waiter.  Schedules are lists of worker indices; "worker `X`
takes its `c`-th step at time `t`" is `tr[t]? = some X` with
`(tr.take t).count X = c`. -/
theorem triple_lock_protocol (ks : List WKind) (tr : List Nat) (s : LockSys)
    (hrun : runSched (initSys ks) tr = some s) :
    (∀ (i j : Nat) (wi wj : WorkerSt),
      s.workers[i]? = some wi → s.workers[j]? = some wj →
      holdsM wi = true → holdsM wj = true → i = j) ∧
    (∀ A B tA0 tB0 tB2,
      ks[A]? = some .screenshot → ks[B]? = some .screenshot →
      tr[tA0]? = some A → (tr.take tA0).count A = 0 →
      tr[tB0]? = some B → (tr.take tB0).count B = 0 →
      tA0 < tB0 →
      tr[tB2]? = some B → (tr.take tB2).count B = 2 →
      ∃ tA2, tA2 < tB2 ∧ tr[tA2]? = some A ∧
        (tr.take tA2).count A = 2) := by
  have hsplit : ∀ t, ∃ st,
      runSched (initSys ks) (tr.take t) = some st ∧
      runSched st (tr.drop t) = some s := by
    intro t
    have happ := runSched_append (tr.take t) (tr.drop t) (initSys ks)
    rw [List.take_append_drop, hrun] at happ
    cases hst : runSched (initSys ks) (tr.take t) with
    | none => rw [hst] at happ; cases happ
    | some st =>
      rw [hst] at happ
      exact ⟨st, rfl, happ.symm⟩
  constructor
  · have hInv := lockInv_run tr (initSys ks) s (lockInv_init ks) hrun
    intro i j wi wj hwi hwj hmi hmj
    have h1 := (hInv.2.1 i).mpr ⟨wi, hwi, hmi⟩
    have h2 := (hInv.2.1 j).mpr ⟨wj, hwj, hmj⟩
    exact Option.some_injective _ (h1.symm.trans h2)
  · intro A B tA0 tB0 tB2 hkA hkB htA htA0 htB htB0 horder htB2 htB2c
    have hinitA : (initSys ks).workers[A]? = some ⟨.screenshot, 0⟩ := by
      rw [initSys_workers, hkA]
      rfl
    have hinitB : (initSys ks).workers[B]? = some ⟨.screenshot, 0⟩ := by
      rw [initSys_workers, hkB]
      rfl
    -- B's acq-L step at tB0 requires lock_l free there
    obtain ⟨sB, hsB, hsBrest⟩ := hsplit tB0
    have hlenB : tB0 < tr.length := by
      rcases List.getElem?_eq_some.mp htB with ⟨h, -⟩
      exact h
    have hgetB : tr[tB0] = B := by
      rcases List.getElem?_eq_some.mp htB with ⟨hl, h⟩
      exact h
    rw [List.drop_eq_getElem_cons hlenB, hgetB, runSched] at hsBrest
    have hwB : sB.workers[B]? = some ⟨.screenshot, 0⟩ := by
      obtain ⟨w, hws, hk, hpc⟩ :=
        runSched_workers (tr.take tB0) _ sB hsB B _ hinitB
      obtain ⟨k, p⟩ := w
      simp only at hk hpc
      rw [htB0] at hpc
      rw [hws, hk, hpc]
    cases hstepB : stepW sB B with
    | none => rw [hstepB] at hsBrest; cases hsBrest
    | some sB' =>
      have hBfree : sB.ownerL = none :=
        (acqL_first_step sB sB' B hwB hstepB).1
      -- A's acq-L step at tA0
      obtain ⟨sA, hsA, -⟩ := hsplit tA0
      have hlenA : tA0 < tr.length := by
        rcases List.getElem?_eq_some.mp htA with ⟨h, -⟩
        exact h
      have htake1 : tr.take (tA0 + 1) = tr.take tA0 ++ [A] := by
        rw [List.take_succ, htA]
        rfl
      have hwA : sA.workers[A]? = some ⟨.screenshot, 0⟩ := by
        obtain ⟨w, hws, hk, hpc⟩ :=
          runSched_workers (tr.take tA0) _ sA hsA A _ hinitA
        obtain ⟨k, p⟩ := w
        simp only at hk hpc
        rw [htA0] at hpc
        rw [hws, hk, hpc]
      obtain ⟨sAp, hsApPre, -⟩ := hsplit (tA0 + 1)
      have hstepA : stepW sA A = some sAp := by
        have h1 := hsApPre
        rw [htake1, runSched_append, hsA] at h1
        simp only [Option.some_bind, runSched] at h1
        cases hst : stepW sA A with
        | none => rw [hst] at h1; simp at h1
        | some x =>
          rw [hst] at h1
          simp only [Option.some_bind] at h1
          exact h1
      have hAowner : sAp.ownerL = some A :=
        (acqL_first_step sA sAp A hwA hstepA).2
      have hApWorker : sAp.workers[A]? = some ⟨.screenshot, 1⟩ := by
        obtain ⟨w, hws, hk, hpc⟩ :=
          runSched_workers (tr.take (tA0 + 1)) _ sAp hsApPre A _ hinitA
        obtain ⟨k, p⟩ := w
        simp only at hk hpc
        rw [htake1, List.count_append, htA0] at hpc
        simp at hpc
        rw [hws, hk, hpc]
      -- the run from sAp to sB along the middle segment
      have hmid : runSched sAp ((tr.take tB0).drop (tA0 + 1)) = some sB := by
        have hdecomp : tr.take tB0 =
            tr.take (tA0 + 1) ++ (tr.take tB0).drop (tA0 + 1) := by
          have h1 : (tr.take tB0).take (tA0 + 1) = tr.take (tA0 + 1) := by
            rw [List.take_take, Nat.min_eq_left (by omega)]
          conv_lhs => rw [← List.take_append_drop (tA0 + 1) (tr.take tB0)]
          rw [h1]
        have h2 := hsB
        rw [hdecomp, runSched_append, hsApPre] at h2
        simpa using h2
      have hApInv : LockInv sAp :=
        lockInv_run (tr.take (tA0 + 1)) _ sAp (lockInv_init ks) hsApPre
      -- A must have performed at least 6 steps strictly between
      have hseg6 : 6 ≤ ((tr.take tB0).drop (tA0 + 1)).count A := by
        by_contra hlt
        push_neg at hlt
        have := ownerL_stable ((tr.take tB0).drop (tA0 + 1)) sAp sB A
          hApInv hmid hAowner ?_
        · rw [this] at hBfree
          cases hBfree
        · intro w hw
          rw [hApWorker] at hw
          obtain rfl := Option.some_injective _ hw
          simp only
          omega
      -- so A's step count in the prefix up to tB0 is at least 7
      have hcountA : 7 ≤ (tr.take tB0).count A := by
        have hdecomp : tr.take tB0 =
            tr.take (tA0 + 1) ++ (tr.take tB0).drop (tA0 + 1) := by
          have h1 : (tr.take tB0).take (tA0 + 1) = tr.take (tA0 + 1) := by
            rw [List.take_take, Nat.min_eq_left (by omega)]
          conv_lhs => rw [← List.take_append_drop (tA0 + 1) (tr.take tB0)]
          rw [h1]
        rw [hdecomp, List.count_append, htake1, List.count_append, htA0]
        simp
        omega
      -- locate A's third step (index 2) before tB0
      obtain ⟨tA2, -, hlt, hA2, hA2c⟩ :=
        count_crossing tr A 2 tB0 0 (by omega) (by simp) (by omega)
      have htB0lt : tB0 < tB2 := by
        by_contra hc
        push_neg at hc
        have := count_take_mono tr B tB2 tB0 hc
        omega
      exact ⟨tA2, by omega, hA2, hA2c⟩

/-- Witness for C9: two screenshot workers scheduled one after the other;
the run succeeds and the protocol guarantees hold for it. -/
theorem triple_lock_protocol_witness :
    (∀ (i j : Nat) (wi wj : WorkerSt),
      (⟨[⟨.screenshot, 7⟩, ⟨.screenshot, 7⟩], none, none, none⟩ :
        LockSys).workers[i]? = some wi →
      (⟨[⟨.screenshot, 7⟩, ⟨.screenshot, 7⟩], none, none, none⟩ :
        LockSys).workers[j]? = some wj →
      holdsM wi = true → holdsM wj = true → i = j) ∧
    (∀ A B tA0 tB0 tB2,
      [WKind.screenshot, WKind.screenshot][A]? = some .screenshot →
      [WKind.screenshot, WKind.screenshot][B]? = some .screenshot →
      ([0, 0, 0, 0, 0, 0, 0, 1, 1, 1, 1, 1, 1, 1] :
        List Nat)[tA0]? = some A →
      (([0, 0, 0, 0, 0, 0, 0, 1, 1, 1, 1, 1, 1, 1] :
        List Nat).take tA0).count A = 0 →
      ([0, 0, 0, 0, 0, 0, 0, 1, 1, 1, 1, 1, 1, 1] :
        List Nat)[tB0]? = some B →
      (([0, 0, 0, 0, 0, 0, 0, 1, 1, 1, 1, 1, 1, 1] :
        List Nat).take tB0).count B = 0 →
      tA0 < tB0 →
      ([0, 0, 0, 0, 0, 0, 0, 1, 1, 1, 1, 1, 1, 1] :
        List Nat)[tB2]? = some B →
      (([0, 0, 0, 0, 0, 0, 0, 1, 1, 1, 1, 1, 1, 1] :
        List Nat).take tB2).count B = 2 →
      ∃ tA2, tA2 < tB2 ∧
        ([0, 0, 0, 0, 0, 0, 0, 1, 1, 1, 1, 1, 1, 1] :
          List Nat)[tA2]? = some A ∧
        (([0, 0, 0, 0, 0, 0, 0, 1, 1, 1, 1, 1, 1, 1] :
          List Nat).take tA2).count A = 2) :=
  triple_lock_protocol [.screenshot, .screenshot]
    [0, 0, 0, 0, 0, 0, 0, 1, 1, 1, 1, 1, 1, 1]
    ⟨[⟨.screenshot, 7⟩, ⟨.screenshot, 7⟩], none, none, none⟩ (by decide)

end CookieScanner
